import Mathlib

/-!
Verification of the lspd multiplexing daemon against its specification.

The development shallowly embeds the core of the repository:
* a byte-level model of JSON values, `JSON.stringify` and `JSON.parse`
  (strings are carried as their UTF-8 byte sequences, so serialization
  emits exactly the bytes `Buffer.from(JSON.stringify(m), "utf8")` would);
* the length-prefixed framer (`encodeMessage` / `readMessages` /
  `parseContentLength` from `src/lsp/framing.ts`);
* the mux state machine (`MuxState` from the daemon module) as a pure
  transition system over an explicit state, producing a list of outbound
  writes per processed event;
* the pull-to-push diagnostics bridge (`DiagnosticsBridge`).
-/

/-- UTF-8 bytes of an ASCII Lean string literal.  Used only to name
protocol constants such as `"Content-Length"`; for ASCII text the UTF-8
bytes coincide with the character codes. -/
def asciiBytes (s : String) : List Nat :=
  s.data.map Char.toNat

/-- JSON values.  Strings are represented by the UTF-8 bytes of their
content; numbers are restricted to integers, which covers every numeric
field the daemon itself mints or inspects (ids and counters). -/
inductive Json where
  | null : Json
  | bool (b : Bool) : Json
  | num (n : Int) : Json
  | str (s : List Nat) : Json
  | arr (elems : List Json) : Json
  | obj (fields : List (List Nat × Json)) : Json

namespace Json

/-- Property lookup `j[key]`: only objects have own properties in the model
(`undefined` on every other shape), mirroring that the daemon only ever
reads `method` / `id` / `params` / `result` style fields. -/
def field : Json → List Nat → Option Json
  | obj fields, k => fields.lookup k
  | _, _ => none

/-- JavaScript `x == null` (matches both `undefined` and `null`). -/
def isNullish : Option Json → Bool
  | none => true
  | some null => true
  | some _ => false

/-- `a ?? b`: nullish coalescing on a property read. -/
def coalesce (o : Option Json) (dflt : Json) : Json :=
  match o with
  | none => dflt
  | some null => dflt
  | some v => v

/-- JavaScript truthiness (`Boolean(x)`) on the modelled values. -/
def truthy : Json → Bool
  | null => false
  | bool b => b
  | num n => n != 0
  | str s => !s.isEmpty
  | arr _ => true
  | obj _ => true

end Json

/-- Update a field of an association list in place (keeping its position),
appending at the end when absent — the behaviour of
`{ ...obj, key: value }` on the updated key. -/
def setAssoc (k : List Nat) (v : Json) :
    List (List Nat × Json) → List (List Nat × Json)
  | [] => [(k, v)]
  | (k', v') :: rest =>
    if k' = k then (k, v) :: rest else (k', v') :: setAssoc k v rest

/-- `{ ...j, key: value }`.  All spread sites in the daemon are reached only
with object-shaped messages; on non-objects the spread keeps no properties. -/
def Json.setField (j : Json) (k : List Nat) (v : Json) : Json :=
  match j with
  | Json.obj fields => Json.obj (setAssoc k v fields)
  | _ => Json.obj [(k, v)]

/-- Decimal digits (ASCII bytes, most significant first) of a natural
number.  Fuel-based so that it is structural; `fuel > 0` and `n ≤ fuel`
always hold at use sites. -/
def natDecDigits : Nat → Nat → List Nat
  | 0, _ => []
  | fuel + 1, n =>
    if n < 10 then [48 + n]
    else natDecDigits fuel (n / 10) ++ [48 + n % 10]

/-- Decimal ASCII bytes of a natural number (`String(n)` for `n ≥ 0`). -/
def natToDec (n : Nat) : List Nat :=
  natDecDigits (n + 1) n

/-- Decimal ASCII bytes of an integer (`String(n)` / `JSON.stringify(n)`). -/
def intToDec (n : Int) : List Nat :=
  if n < 0 then 45 :: natToDec n.natAbs else natToDec n.natAbs

example : intToDec 0 = asciiBytes "0" := by decide
example : intToDec 120 = asciiBytes "120" := by decide
example : intToDec (-35) = asciiBytes "-35" := by decide

/-! ### JSON serialization (`JSON.stringify`), at the byte level -/

/-- Lowercase hexadecimal digit byte for a value below 16. -/
def hexDigit (n : Nat) : Nat :=
  if n < 10 then 48 + n else 87 + n

/-- Escape of a single string byte in `JSON.stringify` output: quote and
backslash get two-byte escapes, the five named control characters get
their short forms, remaining control bytes get a lowercase `\u00XX`
escape, and all other bytes (including UTF-8 continuation bytes) pass
through untouched. -/
def escNat (b : Nat) : List Nat :=
  if b = 34 then [92, 34]
  else if b = 92 then [92, 92]
  else if b = 8 then [92, 98]
  else if b = 9 then [92, 116]
  else if b = 10 then [92, 110]
  else if b = 12 then [92, 102]
  else if b = 13 then [92, 114]
  else if b < 32 then [92, 117, 48, 48, hexDigit (b / 16), hexDigit (b % 16)]
  else [b]

/-- Escape a whole string body. -/
def escBytes : List Nat → List Nat
  | [] => []
  | b :: rest => escNat b ++ escBytes rest

mutual

/-- `JSON.stringify`, producing the UTF-8 bytes of the compact (no added
whitespace) serialization. -/
def Json.ser : Json → List Nat
  | Json.null => asciiBytes "null"
  | Json.bool true => asciiBytes "true"
  | Json.bool false => asciiBytes "false"
  | Json.num n => intToDec n
  | Json.str s => 34 :: (escBytes s ++ [34])
  | Json.arr xs => 91 :: (Json.serElems xs ++ [93])
  | Json.obj fs => 123 :: (Json.serFields fs ++ [125])

/-- Comma-joined serialization of array elements. -/
def Json.serElems : List Json → List Nat
  | [] => []
  | x :: xs => Json.ser x ++ Json.serElemsTail xs

/-- Elements after the first, each preceded by a comma. -/
def Json.serElemsTail : List Json → List Nat
  | [] => []
  | x :: xs => 44 :: (Json.ser x ++ Json.serElemsTail xs)

/-- Comma-joined serialization of object members, each a `"key":value`. -/
def Json.serFields : List (List Nat × Json) → List Nat
  | [] => []
  | (k, v) :: fs =>
    34 :: (escBytes k ++ 34 :: 58 :: Json.ser v) ++ Json.serFieldsTail fs

/-- Members after the first, each preceded by a comma. -/
def Json.serFieldsTail : List (List Nat × Json) → List Nat
  | [] => []
  | (k, v) :: fs =>
    44 :: (34 :: (escBytes k ++ 34 :: 58 :: Json.ser v) ++ Json.serFieldsTail fs)

end

/-- One `"key":value` member (abbreviation used in proofs). -/
def Json.serPair (k : List Nat) (v : Json) : List Nat :=
  34 :: (escBytes k ++ 34 :: 58 :: Json.ser v)

/-! ### JSON parsing (`JSON.parse`), at the byte level

The parser accepts the insignificant-whitespace JSON grammar over bytes.
Model restrictions: numbers are limited to (optionally signed) integer
literals, matching the `Json` value type, and raw control bytes inside
strings are passed through rather than rejected; neither corner is
exercised by the daemon, which only parses back what peers framed. -/

/-- JSON insignificant whitespace (space, tab, line feed, carriage return). -/
def isWs (b : Nat) : Bool :=
  b = 32 || b = 9 || b = 10 || b = 13

/-- Drop leading insignificant whitespace. -/
def skipWs : List Nat → List Nat
  | [] => []
  | b :: rest => if isWs b then skipWs rest else b :: rest

/-- ASCII decimal digit. -/
def isDigit (b : Nat) : Bool :=
  48 ≤ b && b ≤ 57

/-- Split off the maximal digit prefix. -/
def takeDigits : List Nat → List Nat × List Nat
  | [] => ([], [])
  | b :: rest =>
    if isDigit b then
      let (ds, r) := takeDigits rest
      (b :: ds, r)
    else ([], b :: rest)

/-- Numeric value of a digit string. -/
def digitsVal (l : List Nat) : Nat :=
  l.foldl (fun a b => a * 10 + (b - 48)) 0

/-- Value of a hexadecimal digit byte, if it is one. -/
def hexVal (b : Nat) : Option Nat :=
  if 48 ≤ b ∧ b ≤ 57 then some (b - 48)
  else if 97 ≤ b ∧ b ≤ 102 then some (b - 87)
  else if 65 ≤ b ∧ b ≤ 70 then some (b - 55)
  else none

/-- UTF-8 encoding of a code point, used when a `\uXXXX` escape is decoded
back into the byte-level string representation. -/
def utf8Enc (c : Nat) : List Nat :=
  if c < 0x80 then [c]
  else if c < 0x800 then [0xC0 + c / 64, 0x80 + c % 64]
  else if c < 0x10000 then [0xE0 + c / 4096, 0x80 + c / 64 % 64, 0x80 + c % 64]
  else [0xF0 + c / 262144, 0x80 + c / 4096 % 64, 0x80 + c / 64 % 64, 0x80 + c % 64]

/-- Read four hex digits. -/
def hex4 : List Nat → Option (Nat × List Nat)
  | a :: b :: c :: d :: rest => do
    let va ← hexVal a
    let vb ← hexVal b
    let vc ← hexVal c
    let vd ← hexVal d
    some (((va * 16 + vb) * 16 + vc) * 16 + vd, rest)
  | _ => none

/-- String body after the opening quote: bytes up to the closing quote,
with backslash escapes decoded.  `acc` accumulates the decoded content. -/
def parseStrBody (acc : List Nat) (input : List Nat) :
    Option (List Nat × List Nat) :=
  match input with
  | [] => none
  | b :: rest =>
    if b = 34 then some (acc, rest)
    else if b = 92 then
      match rest with
      | [] => none
      | e :: rest' =>
        if e = 34 then parseStrBody (acc ++ [34]) rest'
        else if e = 92 then parseStrBody (acc ++ [92]) rest'
        else if e = 47 then parseStrBody (acc ++ [47]) rest'
        else if e = 98 then parseStrBody (acc ++ [8]) rest'
        else if e = 102 then parseStrBody (acc ++ [12]) rest'
        else if e = 110 then parseStrBody (acc ++ [10]) rest'
        else if e = 114 then parseStrBody (acc ++ [13]) rest'
        else if e = 116 then parseStrBody (acc ++ [9]) rest'
        else if e = 117 then
          match rest' with
          | h1 :: h2 :: h3 :: h4 :: rest'' =>
            match hexVal h1, hexVal h2, hexVal h3, hexVal h4 with
            | some v1, some v2, some v3, some v4 =>
              parseStrBody (acc ++ utf8Enc (((v1 * 16 + v2) * 16 + v3) * 16 + v4)) rest''
            | _, _, _, _ => none
          | _ => none
        else none
    else parseStrBody (acc ++ [b]) rest

/-- Unsigned integer literal: a nonempty digit run not followed by a
fraction or exponent marker (the model rejects non-integer numerals). -/
def parseNatLit (input : List Nat) : Option (Nat × List Nat) :=
  let (ds, rest) := takeDigits input
  if ds.isEmpty then none
  else
    match rest with
    | [] => some (digitsVal ds, [])
    | b :: _ =>
      if b = 46 || b = 101 || b = 69 then none
      else some (digitsVal ds, rest)

/-- Integer literal with optional leading minus sign. -/
def parseNumLit (input : List Nat) : Option (Json × List Nat) :=
  match input with
  | [] => none
  | b :: rest =>
    if b = 45 then
      (parseNatLit rest).map (fun p => (Json.num (-(p.1 : Int)), p.2))
    else
      (parseNatLit input).map (fun p => (Json.num (p.1 : Int), p.2))

/-- Head bytes expected next; returns the remainder on a match. -/
def expectBytes (pat : List Nat) (l : List Nat) : Option (List Nat) :=
  match pat, l with
  | [], rest => some rest
  | p :: pat', b :: rest => if b = p then expectBytes pat' rest else none
  | _ :: _, [] => none

mutual

/-- Parse one JSON value (after skipping leading whitespace), returning it
together with the unconsumed remainder. -/
def parseVal : Nat → List Nat → Option (Json × List Nat)
  | 0, _ => none
  | fuel + 1, input =>
    match skipWs input with
    | [] => none
    | b :: rest =>
      if b = 110 then (expectBytes [117, 108, 108] rest).map (fun r => (Json.null, r))
      else if b = 116 then (expectBytes [114, 117, 101] rest).map (fun r => (Json.bool true, r))
      else if b = 102 then (expectBytes [97, 108, 115, 101] rest).map (fun r => (Json.bool false, r))
      else if b = 34 then (parseStrBody [] rest).map (fun p => (Json.str p.1, p.2))
      else if b = 91 then parseArrFirst fuel rest
      else if b = 123 then parseObjFirst fuel rest
      else parseNumLit (b :: rest)

/-- After `[`: either an immediate `]` or a first element. -/
def parseArrFirst : Nat → List Nat → Option (Json × List Nat)
  | 0, _ => none
  | fuel + 1, input =>
    match skipWs input with
    | [] => none
    | b :: rest =>
      if b = 93 then some (Json.arr [], rest)
      else do
        let (v, r) ← parseVal fuel (b :: rest)
        parseArrRest fuel [v] r

/-- After an element: a comma and another element, or the closing `]`. -/
def parseArrRest : Nat → List Json → List Nat → Option (Json × List Nat)
  | 0, _, _ => none
  | fuel + 1, acc, input =>
    match skipWs input with
    | [] => none
    | b :: rest =>
      if b = 44 then do
        let (v, r) ← parseVal fuel rest
        parseArrRest fuel (acc ++ [v]) r
      else if b = 93 then some (Json.arr acc, rest)
      else none

/-- After `{`: either an immediate `}` or a first member. -/
def parseObjFirst : Nat → List Nat → Option (Json × List Nat)
  | 0, _ => none
  | fuel + 1, input =>
    match skipWs input with
    | [] => none
    | b :: rest =>
      if b = 125 then some (Json.obj [], rest)
      else parseObjMember fuel [] (b :: rest)

/-- One `"key" : value` member starting at `input`, then the tail. -/
def parseObjMember : Nat → List (List Nat × Json) → List Nat →
    Option (Json × List Nat)
  | 0, _, _ => none
  | fuel + 1, acc, input =>
    match input with
    | [] => none
    | b :: rest =>
      if b = 34 then do
        let (k, r1) ← parseStrBody [] rest
        match skipWs r1 with
        | [] => none
        | c :: r2 =>
          if c = 58 then do
            let (v, r3) ← parseVal fuel r2
            parseObjRest fuel (acc ++ [(k, v)]) r3
          else none
      else none

/-- After a member: a comma and another member, or the closing `}`. -/
def parseObjRest : Nat → List (List Nat × Json) → List Nat →
    Option (Json × List Nat)
  | 0, _, _ => none
  | fuel + 1, acc, input =>
    match skipWs input with
    | [] => none
    | b :: rest =>
      if b = 44 then parseObjMember fuel acc (skipWs rest)
      else if b = 125 then some (Json.obj acc, rest)
      else none

end

/-- `JSON.parse` on a byte string: one value and nothing but trailing
whitespace. -/
def jsonParse (input : List Nat) : Option Json :=
  match parseVal (2 * input.length + 2) input with
  | some (v, rest) => if (skipWs rest).isEmpty then some v else none
  | none => none

example : jsonParse (asciiBytes "\x7b\"id\":1,\"method\":\"x\"\x7d")
    = some (Json.obj [(asciiBytes "id", Json.num 1),
        (asciiBytes "method", Json.str (asciiBytes "x"))]) := by rfl

example :
    jsonParse (Json.ser (Json.arr [Json.num (-3), Json.null,
      Json.obj [(asciiBytes "a", Json.str [233, 8, 34])]]))
    = some (Json.arr [Json.num (-3), Json.null,
        Json.obj [(asciiBytes "a", Json.str [233, 8, 34])]]) := by rfl

/-! ### Parse/serialize roundtrip -/

theorem natDecDigits_spec :
    ∀ fuel n, n < fuel →
      (∀ b ∈ natDecDigits fuel n, isDigit b = true) ∧
        natDecDigits fuel n ≠ [] := by
  intro fuel
  induction fuel with
  | zero => intro n h; omega
  | succ f ih =>
    intro n hn'
    by_cases hn : n < 10
    · refine ⟨?_, by simp [natDecDigits, hn]⟩
      intro b hb
      simp [natDecDigits, hn] at hb
      subst hb; simp [isDigit]
      show 48 + n ≤ 57
      omega
    · have hdiv : n / 10 < f := by omega
      have hrec := ih (n / 10) hdiv
      refine ⟨?_, by simp [natDecDigits, hn]⟩
      intro b hb
      simp only [natDecDigits, if_neg hn, List.mem_append, List.mem_singleton] at hb
      rcases hb with hb | hb
      · exact hrec.1 b hb
      · subst hb; simp [isDigit]
        show 48 + n % 10 ≤ 57
        omega

theorem foldl_natDecDigits (f : Nat → Nat → Nat)
    (hf : ∀ a b, f a b = a * 10 + (b - 48)) :
    ∀ fuel n, n < fuel → ∀ acc,
      (natDecDigits fuel n).foldl f acc =
        acc * 10 ^ (natDecDigits fuel n).length + n := by
  intro fuel
  induction fuel with
  | zero => intro n h; omega
  | succ fl ih =>
    intro n hn' acc
    by_cases hn : n < 10
    · simp [natDecDigits, hn, hf]
    · have hdiv : n / 10 < fl := by omega
      have hrec := ih (n / 10) hdiv
      simp only [natDecDigits, if_neg hn, List.foldl_append, List.length_append,
        List.foldl_cons, List.foldl_nil, List.length_cons, List.length_nil]
      rw [hrec acc, hf]
      have h48 : 48 + n % 10 - 48 = n % 10 := by omega
      rw [h48, pow_succ]
      have hmul : acc * (10 ^ (natDecDigits fl (n / 10)).length * 10)
          = acc * 10 ^ (natDecDigits fl (n / 10)).length * 10 := by ring
      rw [hmul]
      omega

theorem digitsVal_natToDec (n : Nat) : digitsVal (natToDec n) = n := by
  have := foldl_natDecDigits (fun a b => a * 10 + (b - 48)) (fun _ _ => rfl)
    (n + 1) n (by omega) 0
  simpa [digitsVal, natToDec] using this

theorem natToDec_digits (n : Nat) :
    (∀ b ∈ natToDec n, isDigit b = true) ∧ natToDec n ≠ [] :=
  natDecDigits_spec (n + 1) n (by omega)

/-- The remainder either ends or continues with a byte failing `p`. -/
def HeadNot (p : Nat → Bool) : List Nat → Prop
  | [] => True
  | b :: _ => p b = false

theorem takeDigits_exact :
    ∀ ds rest, (∀ b ∈ ds, isDigit b = true) → HeadNot isDigit rest →
      takeDigits (ds ++ rest) = (ds, rest) := by
  intro ds
  induction ds with
  | nil =>
    intro rest _ hrest
    match rest with
    | [] => rfl
    | b :: r => simp [HeadNot.eq_def] at hrest; simp [takeDigits, hrest]
  | cons d ds ih =>
    intro rest hds hrest
    have hd : isDigit d = true := hds d (by simp)
    have := ih rest (fun b hb => hds b (by simp [hb])) hrest
    simp [takeDigits, hd, this]

/-- Bytes that may not follow an integer literal for it to be accepted:
digits and the fraction/exponent markers. -/
def numStop (b : Nat) : Bool :=
  isDigit b || (b == 46) || (b == 101) || (b == 69)

theorem parseNatLit_natToDec (n : Nat) (rest : List Nat)
    (hrest : HeadNot numStop rest) :
    parseNatLit (natToDec n ++ rest) = some (n, rest) := by
  have hds := natToDec_digits n
  have htake : takeDigits (natToDec n ++ rest) = (natToDec n, rest) := by
    apply takeDigits_exact _ _ hds.1
    match rest with
    | [] => trivial
    | b :: r =>
      simp only [HeadNot.eq_def, numStop, Bool.or_eq_false_iff,
        beq_eq_false_iff_ne, ne_eq] at hrest
      exact hrest.1.1.1
  simp only [parseNatLit, htake]
  rw [if_neg (by simpa using hds.2)]
  match rest with
  | [] => simp [digitsVal_natToDec]
  | b :: r =>
    simp only [HeadNot.eq_def, numStop, Bool.or_eq_false_iff,
      beq_eq_false_iff_ne, ne_eq] at hrest
    obtain ⟨⟨⟨hdig, h46⟩, h101⟩, h69⟩ := hrest
    simp [digitsVal_natToDec, h46, h101, h69]

theorem natToDec_head : ∃ d t, natToDec n = d :: t ∧ isDigit d = true := by
  obtain ⟨hds, hne⟩ := natToDec_digits n
  match h : natToDec n with
  | [] => exact absurd h hne
  | d :: t => exact ⟨d, t, rfl, by apply hds; simp [h]⟩

theorem parseNumLit_intToDec (n : Int) (rest : List Nat)
    (hrest : HeadNot numStop rest) :
    parseNumLit (intToDec n ++ rest) = some (Json.num n, rest) := by
  by_cases hn : n < 0
  · have habs : -((n.natAbs : Nat) : Int) = n := by omega
    simp only [intToDec, if_pos hn, List.cons_append, parseNumLit]
    rw [if_pos trivial, parseNatLit_natToDec n.natAbs rest hrest]
    simp only [Option.map_some']
    rw [habs]
  · have habs : ((n.natAbs : Nat) : Int) = n := Int.natAbs_of_nonneg (by omega)
    obtain ⟨d, t, hdt, hd⟩ := natToDec_head (n := n.natAbs)
    simp only [intToDec, if_neg hn, hdt, List.cons_append, parseNumLit]
    have hd45 : ¬(d = 45) := by simp [isDigit] at hd; omega
    rw [if_neg hd45, ← List.cons_append, ← hdt,
      parseNatLit_natToDec n.natAbs rest hrest]
    simp only [Option.map_some']
    rw [habs]

theorem hexDigit_val (n : Nat) (h : n < 16) :
    hexVal (hexDigit n) = some n := by
  interval_cases n <;> rfl

theorem psb_done (acc rest : List Nat) :
    parseStrBody acc (34 :: rest) = some (acc, rest) := by
  rw [parseStrBody.eq_def]; simp

theorem psb_escQuote (acc rest : List Nat) :
    parseStrBody acc (92 :: 34 :: rest) = parseStrBody (acc ++ [34]) rest := by
  rw [parseStrBody.eq_def]; simp

theorem psb_escBack (acc rest : List Nat) :
    parseStrBody acc (92 :: 92 :: rest) = parseStrBody (acc ++ [92]) rest := by
  rw [parseStrBody.eq_def]; simp

theorem psb_escB (acc rest : List Nat) :
    parseStrBody acc (92 :: 98 :: rest) = parseStrBody (acc ++ [8]) rest := by
  rw [parseStrBody.eq_def]; simp

theorem psb_escT (acc rest : List Nat) :
    parseStrBody acc (92 :: 116 :: rest) = parseStrBody (acc ++ [9]) rest := by
  rw [parseStrBody.eq_def]; simp

theorem psb_escN (acc rest : List Nat) :
    parseStrBody acc (92 :: 110 :: rest) = parseStrBody (acc ++ [10]) rest := by
  rw [parseStrBody.eq_def]; simp

theorem psb_escF (acc rest : List Nat) :
    parseStrBody acc (92 :: 102 :: rest) = parseStrBody (acc ++ [12]) rest := by
  rw [parseStrBody.eq_def]; simp

theorem psb_escR (acc rest : List Nat) :
    parseStrBody acc (92 :: 114 :: rest) = parseStrBody (acc ++ [13]) rest := by
  rw [parseStrBody.eq_def]; simp

theorem psb_escU (acc rest : List Nat) (h1 h2 h3 h4 : Nat) (v1 v2 v3 v4 : Nat)
    (hv1 : hexVal h1 = some v1) (hv2 : hexVal h2 = some v2)
    (hv3 : hexVal h3 = some v3) (hv4 : hexVal h4 = some v4) :
    parseStrBody acc (92 :: 117 :: h1 :: h2 :: h3 :: h4 :: rest)
      = parseStrBody (acc ++ utf8Enc (((v1 * 16 + v2) * 16 + v3) * 16 + v4)) rest := by
  rw [parseStrBody.eq_def]; simp [hv1, hv2, hv3, hv4]

theorem psb_plain (acc rest : List Nat) (b : Nat)
    (h34 : ¬(b = 34)) (h92 : ¬(b = 92)) :
    parseStrBody acc (b :: rest) = parseStrBody (acc ++ [b]) rest := by
  rw [parseStrBody.eq_def]; simp [h34, h92]

theorem parseStrBody_esc :
    ∀ s acc rest, parseStrBody acc (escBytes s ++ 34 :: rest) = some (acc ++ s, rest) := by
  intro s
  induction s with
  | nil =>
    intro acc rest
    rw [show escBytes [] ++ 34 :: rest = 34 :: rest from rfl, psb_done]
    simp
  | cons b s ih =>
    intro acc rest
    rw [show escBytes (b :: s) = escNat b ++ escBytes s from rfl, List.append_assoc]
    by_cases h34 : b = 34
    · subst h34
      rw [show escNat 34 = [92, 34] from rfl, List.cons_append, List.cons_append,
        List.nil_append, psb_escQuote, ih]
      simp
    · by_cases h92 : b = 92
      · subst h92
        rw [show escNat 92 = [92, 92] from rfl, List.cons_append, List.cons_append,
          List.nil_append, psb_escBack, ih]
        simp
      · by_cases h8 : b = 8
        · subst h8
          rw [show escNat 8 = [92, 98] from rfl, List.cons_append, List.cons_append,
            List.nil_append, psb_escB, ih]
          simp
        · by_cases h9 : b = 9
          · subst h9
            rw [show escNat 9 = [92, 116] from rfl, List.cons_append, List.cons_append,
              List.nil_append, psb_escT, ih]
            simp
          · by_cases h10 : b = 10
            · subst h10
              rw [show escNat 10 = [92, 110] from rfl, List.cons_append, List.cons_append,
                List.nil_append, psb_escN, ih]
              simp
            · by_cases h12 : b = 12
              · subst h12
                rw [show escNat 12 = [92, 102] from rfl, List.cons_append,
                  List.cons_append, List.nil_append, psb_escF, ih]
                simp
              · by_cases h13 : b = 13
                · subst h13
                  rw [show escNat 13 = [92, 114] from rfl, List.cons_append,
                    List.cons_append, List.nil_append, psb_escR, ih]
                  simp
                · by_cases hctl : b < 32
                  · have hesc : escNat b
                        = [92, 117, 48, 48, hexDigit (b / 16), hexDigit (b % 16)] := by
                      simp [escNat, h34, h92, h8, h9, h10, h12, h13, hctl]
                    have hdiv : b / 16 < 16 := by omega
                    have hmod : b % 16 < 16 := by omega
                    rw [hesc]
                    rw [show [92, 117, 48, 48, hexDigit (b / 16), hexDigit (b % 16)]
                          ++ (escBytes s ++ 34 :: rest)
                        = 92 :: 117 :: 48 :: 48 :: hexDigit (b / 16) :: hexDigit (b % 16)
                          :: (escBytes s ++ 34 :: rest) from rfl]
                    have hv48 : hexVal 48 = some 0 := rfl
                    rw [psb_escU _ _ _ _ _ _ _ _ _ _ hv48 hv48
                      (hexDigit_val _ hdiv) (hexDigit_val _ hmod)]
                    have hcode : ((0 * 16 + 0) * 16 + b / 16) * 16 + b % 16 = b := by
                      have := Nat.div_add_mod b 16
                      omega
                    rw [hcode]
                    have hb128 : b < 128 := by omega
                    rw [show utf8Enc b = [b] by simp [utf8Enc]; omega, ih]
                    simp
                  · have hesc : escNat b = [b] := by
                      simp [escNat, h34, h92, h8, h9, h10, h12, h13, hctl]
                    rw [hesc, List.cons_append, List.nil_append,
                      psb_plain _ _ _ h34 h92, ih]
                    simp

theorem skipWs_not {b : Nat} (h : isWs b = false) :
    ∀ l : List Nat, skipWs (b :: l) = b :: l := by
  intro l; simp [skipWs, h]

theorem ser_null : Json.ser Json.null = [110, 117, 108, 108] := by
  simp [Json.ser, asciiBytes]

theorem ser_true : Json.ser (Json.bool true) = [116, 114, 117, 101] := by
  simp [Json.ser, asciiBytes]

theorem ser_false : Json.ser (Json.bool false) = [102, 97, 108, 115, 101] := by
  simp [Json.ser, asciiBytes]

theorem ser_num (n : Int) : Json.ser (Json.num n) = intToDec n := by
  simp [Json.ser]

theorem ser_str (s : List Nat) : Json.ser (Json.str s) = 34 :: (escBytes s ++ [34]) := by
  simp [Json.ser]

theorem ser_arr (xs : List Json) :
    Json.ser (Json.arr xs) = 91 :: (Json.serElems xs ++ [93]) := by
  simp [Json.ser]

theorem ser_obj (fs : List (List Nat × Json)) :
    Json.ser (Json.obj fs) = 123 :: (Json.serFields fs ++ [125]) := by
  simp [Json.ser]

theorem serElems_nil : Json.serElems [] = [] := by simp [Json.serElems]

theorem serElems_cons (x : Json) (xs : List Json) :
    Json.serElems (x :: xs) = Json.ser x ++ Json.serElemsTail xs := by
  simp [Json.serElems]

theorem serElemsTail_nil : Json.serElemsTail [] = [] := by simp [Json.serElemsTail]

theorem serElemsTail_cons (x : Json) (xs : List Json) :
    Json.serElemsTail (x :: xs) = 44 :: (Json.ser x ++ Json.serElemsTail xs) := by
  simp [Json.serElemsTail]

theorem serFields_nil : Json.serFields [] = [] := by simp [Json.serFields]

theorem serFields_cons (k : List Nat) (v : Json) (fs : List (List Nat × Json)) :
    Json.serFields ((k, v) :: fs) = Json.serPair k v ++ Json.serFieldsTail fs := by
  simp [Json.serFields, Json.serPair]

theorem serFieldsTail_nil : Json.serFieldsTail [] = [] := by simp [Json.serFieldsTail]

theorem serFieldsTail_cons (k : List Nat) (v : Json) (fs : List (List Nat × Json)) :
    Json.serFieldsTail ((k, v) :: fs)
      = 44 :: (Json.serPair k v ++ Json.serFieldsTail fs) := by
  simp [Json.serFieldsTail, Json.serPair]

/-- Every serialization starts with a byte that is neither whitespace nor
one of the structural delimiters `,` `]` `}` `:`. -/
theorem ser_head_props (v : Json) :
    ∃ b t, Json.ser v = b :: t ∧ isWs b = false ∧
      ¬(b = 44) ∧ ¬(b = 93) ∧ ¬(b = 125) ∧ ¬(b = 58) := by
  cases v with
  | null => exact ⟨110, _, ser_null, by decide, by decide, by decide, by decide, by decide⟩
  | bool b =>
    cases b
    · exact ⟨102, _, ser_false, by decide, by decide, by decide, by decide, by decide⟩
    · exact ⟨116, _, ser_true, by decide, by decide, by decide, by decide, by decide⟩
  | num n =>
    rw [ser_num]
    by_cases hn : n < 0
    · refine ⟨45, _, by rw [intToDec, if_pos hn], by decide, by decide, by decide,
        by decide, by decide⟩
    · obtain ⟨d, t, hdt, hd⟩ := natToDec_head (n := n.natAbs)
      have hd' : 48 ≤ d ∧ d ≤ 57 := by simpa [isDigit] using hd
      refine ⟨d, t, by rw [intToDec, if_neg hn, hdt], ?_, by omega, by omega,
        by omega, by omega⟩
      simp [isWs]; omega
  | str s => exact ⟨34, _, ser_str s, by decide, by decide, by decide, by decide, by decide⟩
  | arr xs => exact ⟨91, _, ser_arr xs, by decide, by decide, by decide, by decide, by decide⟩
  | obj fs => exact ⟨123, _, ser_obj fs, by decide, by decide, by decide, by decide, by decide⟩

mutual

/-- Fuel sufficient for `parseVal` to reparse a serialized value. -/
def fuelFor : Json → Nat
  | Json.null => 1
  | Json.bool _ => 1
  | Json.num _ => 1
  | Json.str _ => 1
  | Json.arr xs => fuelForElems xs + 1
  | Json.obj fs => fuelForFields fs + 1

/-- Fuel for the element list of an array. -/
def fuelForElems : List Json → Nat
  | [] => 1
  | x :: xs => fuelFor x + fuelForElems xs + 1

/-- Fuel for the member list of an object. -/
def fuelForFields : List (List Nat × Json) → Nat
  | [] => 1
  | (_, v) :: fs => fuelFor v + fuelForFields fs + 1

end

theorem fuelFor_pos (v : Json) : 1 ≤ fuelFor v := by
  cases v <;> simp [fuelFor]

theorem fuelForElems_pos (xs : List Json) : 1 ≤ fuelForElems xs := by
  cases xs <;> simp [fuelForElems]

theorem fuelForFields_pos (fs : List (List Nat × Json)) : 1 ≤ fuelForFields fs := by
  cases fs with
  | nil => simp [fuelForFields]
  | cons f fs => obtain ⟨k, v⟩ := f; simp [fuelForFields]

/-- What may legally follow a serialized value inside a larger
serialization: nothing, or a closing delimiter / separator. -/
def DelimOk : List Nat → Prop
  | [] => True
  | b :: _ => b = 44 ∨ b = 93 ∨ b = 125

theorem delim_numStop {rest : List Nat} (h : DelimOk rest) : HeadNot numStop rest := by
  match rest with
  | [] => trivial
  | b :: r =>
    simp [DelimOk.eq_def] at h
    rcases h with h | h | h <;> subst h <;> rfl

theorem delim_tail_arr (ys : List Json) (r : List Nat) :
    DelimOk (Json.serElemsTail ys ++ 93 :: r) := by
  cases ys with
  | nil => rw [serElemsTail_nil]; simp [DelimOk]
  | cons x xs => rw [serElemsTail_cons]; simp [DelimOk]

theorem delim_tail_obj (fs : List (List Nat × Json)) (r : List Nat) :
    DelimOk (Json.serFieldsTail fs ++ 125 :: r) := by
  cases fs with
  | nil => rw [serFieldsTail_nil]; simp [DelimOk]
  | cons f fs => obtain ⟨k, v⟩ := f; rw [serFieldsTail_cons]; simp [DelimOk]

theorem skipWsL34 (l : List Nat) : skipWs (34 :: l) = 34 :: l := skipWs_not (by decide) l

theorem skipWsL44 (l : List Nat) : skipWs (44 :: l) = 44 :: l := skipWs_not (by decide) l

theorem skipWsL58 (l : List Nat) : skipWs (58 :: l) = 58 :: l := skipWs_not (by decide) l

theorem skipWsL91 (l : List Nat) : skipWs (91 :: l) = 91 :: l := skipWs_not (by decide) l

theorem skipWsL93 (l : List Nat) : skipWs (93 :: l) = 93 :: l := skipWs_not (by decide) l

theorem skipWsL102 (l : List Nat) : skipWs (102 :: l) = 102 :: l := skipWs_not (by decide) l

theorem skipWsL110 (l : List Nat) : skipWs (110 :: l) = 110 :: l := skipWs_not (by decide) l

theorem skipWsL116 (l : List Nat) : skipWs (116 :: l) = 116 :: l := skipWs_not (by decide) l

theorem skipWsL123 (l : List Nat) : skipWs (123 :: l) = 123 :: l := skipWs_not (by decide) l

theorem skipWsL125 (l : List Nat) : skipWs (125 :: l) = 125 :: l := skipWs_not (by decide) l

theorem parseRound : ∀ fuel : Nat,
    (∀ v rest, fuelFor v ≤ fuel → DelimOk rest →
      parseVal fuel (Json.ser v ++ rest) = some (v, rest)) ∧
    (∀ xs rest, fuelForElems xs ≤ fuel → DelimOk rest →
      parseArrFirst fuel (Json.serElems xs ++ 93 :: rest) = some (Json.arr xs, rest)) ∧
    (∀ xs acc rest, fuelForElems xs ≤ fuel → DelimOk rest →
      parseArrRest fuel acc (Json.serElemsTail xs ++ 93 :: rest)
        = some (Json.arr (acc ++ xs), rest)) ∧
    (∀ fs rest, fuelForFields fs ≤ fuel → DelimOk rest →
      parseObjFirst fuel (Json.serFields fs ++ 125 :: rest)
        = some (Json.obj fs, rest)) ∧
    (∀ k v fs acc rest, fuelFor v + fuelForFields fs ≤ fuel → DelimOk rest →
      parseObjMember fuel acc
          (Json.serPair k v ++ (Json.serFieldsTail fs ++ 125 :: rest))
        = some (Json.obj (acc ++ (k, v) :: fs), rest)) ∧
    (∀ fs acc rest, fuelForFields fs ≤ fuel → DelimOk rest →
      parseObjRest fuel acc (Json.serFieldsTail fs ++ 125 :: rest)
        = some (Json.obj (acc ++ fs), rest)) := by
  intro fuel
  induction fuel with
  | zero =>
    refine ⟨?_, ?_, ?_, ?_, ?_, ?_⟩
    · intro v _ h _; have := fuelFor_pos v; omega
    · intro xs _ h _; have := fuelForElems_pos xs; omega
    · intro xs _ _ h _; have := fuelForElems_pos xs; omega
    · intro fs _ h _; have := fuelForFields_pos fs; omega
    · intro k v fs _ _ h _; have := fuelFor_pos v; omega
    · intro fs _ _ h _; have := fuelForFields_pos fs; omega
  | succ f ih =>
    obtain ⟨ihV, ihE1, ihE2, ihF1, ihM, ihF2⟩ := ih
    refine ⟨?_, ?_, ?_, ?_, ?_, ?_⟩
    -- parseVal
    · intro v rest hfuel hD
      cases v with
      | null =>
        rw [ser_null, List.cons_append, parseVal.eq_def]
        simp only [skipWsL110]
        simp [expectBytes]
      | bool b =>
        cases b
        · rw [ser_false, List.cons_append, parseVal.eq_def]
          simp only [skipWsL102]
          simp [expectBytes]
        · rw [ser_true, List.cons_append, parseVal.eq_def]
          simp only [skipWsL116]
          simp [expectBytes]
      | num n =>
        rw [ser_num]
        have hhead : ∃ d t, intToDec n = d :: t ∧ (d = 45 ∨ (48 ≤ d ∧ d ≤ 57)) := by
          by_cases hn : n < 0
          · exact ⟨45, _, by rw [intToDec, if_pos hn], Or.inl rfl⟩
          · obtain ⟨d, t, hdt, hd⟩ := natToDec_head (n := n.natAbs)
            exact ⟨d, t, by rw [intToDec, if_neg hn, hdt],
              Or.inr (by simpa [isDigit] using hd)⟩
        obtain ⟨d, t, hdt, hd⟩ := hhead
        have hws : isWs d = false := by simp [isWs]; omega
        have h110 : ¬(d = 110) := by omega
        have h116 : ¬(d = 116) := by omega
        have h102 : ¬(d = 102) := by omega
        have h34 : ¬(d = 34) := by omega
        have h91 : ¬(d = 91) := by omega
        have h123 : ¬(d = 123) := by omega
        rw [hdt, List.cons_append, parseVal.eq_def]
        simp only [skipWs_not hws]
        rw [if_neg h110, if_neg h116, if_neg h102, if_neg h34, if_neg h91,
          if_neg h123]
        rw [← List.cons_append, ← hdt]
        exact parseNumLit_intToDec n rest (delim_numStop hD)
      | str s =>
        rw [ser_str, List.cons_append, parseVal.eq_def]
        simp only [skipWsL34]
        rw [List.append_assoc, List.singleton_append]
        simp [parseStrBody_esc]
      | arr xs =>
        have hx : fuelForElems xs ≤ f := by simp [fuelFor] at hfuel; omega
        rw [ser_arr, List.cons_append, parseVal.eq_def]
        simp only [skipWsL91]
        rw [List.append_assoc, List.singleton_append]
        simp only [show ¬((91:Nat) = 110) by decide, show ¬((91:Nat) = 116) by decide,
          show ¬((91:Nat) = 102) by decide, show ¬((91:Nat) = 34) by decide,
          if_neg, if_false]
        simp only [reduceIte]
        exact ihE1 xs rest hx hD
      | obj fs =>
        have hx : fuelForFields fs ≤ f := by simp [fuelFor] at hfuel; omega
        rw [ser_obj, List.cons_append, parseVal.eq_def]
        simp only [skipWsL123]
        rw [List.append_assoc, List.singleton_append]
        simp only [reduceIte]
        exact ihF1 fs rest hx hD
    -- parseArrFirst
    · intro xs rest hfuel hD
      cases xs with
      | nil =>
        rw [serElems_nil, List.nil_append, parseArrFirst.eq_def]
        simp only [skipWsL93]
        simp
      | cons x xs =>
        have hx : fuelFor x ≤ f := by
          simp [fuelForElems] at hfuel
          have := fuelForElems_pos xs; omega
        have hxs : fuelForElems xs ≤ f := by
          simp [fuelForElems] at hfuel
          have := fuelFor_pos x; omega
        obtain ⟨b, t, hbt, hws, h44, h93, h125, h58⟩ := ser_head_props x
        rw [serElems_cons, List.append_assoc, hbt, List.cons_append,
          parseArrFirst.eq_def]
        simp only [skipWs_not hws]
        rw [if_neg h93]
        rw [← List.cons_append, ← hbt,
          ihV x (Json.serElemsTail xs ++ 93 :: rest) hx (delim_tail_arr xs rest)]
        simp only [Option.bind_eq_bind, Option.some_bind]
        rw [ihE2 xs [x] rest hxs hD]
        simp
    -- parseArrRest
    · intro xs acc rest hfuel hD
      cases xs with
      | nil =>
        rw [serElemsTail_nil, List.nil_append, parseArrRest.eq_def]
        simp only [skipWsL93]
        simp
      | cons x xs =>
        have hx : fuelFor x ≤ f := by
          simp [fuelForElems] at hfuel
          have := fuelForElems_pos xs; omega
        have hxs : fuelForElems xs ≤ f := by
          simp [fuelForElems] at hfuel
          have := fuelFor_pos x; omega
        rw [serElemsTail_cons, List.cons_append, parseArrRest.eq_def]
        simp only [skipWsL44]
        simp only [reduceIte]
        rw [List.append_assoc,
          ihV x (Json.serElemsTail xs ++ 93 :: rest) hx (delim_tail_arr xs rest)]
        simp only [Option.bind_eq_bind, Option.some_bind]
        rw [ihE2 xs (acc ++ [x]) rest hxs hD]
        simp
    -- parseObjFirst
    · intro fs rest hfuel hD
      cases fs with
      | nil =>
        rw [serFields_nil, List.nil_append, parseObjFirst.eq_def]
        simp only [skipWsL125]
        simp
      | cons kv fs =>
        obtain ⟨k, v⟩ := kv
        have hkv : fuelFor v + fuelForFields fs ≤ f := by
          simp [fuelForFields] at hfuel; omega
        rw [serFields_cons, List.append_assoc]
        rw [show Json.serPair k v ++ (Json.serFieldsTail fs ++ 125 :: rest)
              = 34 :: ((escBytes k ++ 34 :: 58 :: Json.ser v)
                  ++ (Json.serFieldsTail fs ++ 125 :: rest)) by
            rw [Json.serPair]; rfl]
        rw [parseObjFirst.eq_def]
        simp only [skipWsL34]
        rw [show (34 : Nat) :: ((escBytes k ++ 34 :: 58 :: Json.ser v)
              ++ (Json.serFieldsTail fs ++ 125 :: rest))
            = Json.serPair k v ++ (Json.serFieldsTail fs ++ 125 :: rest) by
          rw [Json.serPair]; rfl]
        rw [ihM k v fs [] rest hkv hD]
        simp
    -- parseObjMember
    · intro k v fs acc rest hfuel hD
      have hv : fuelFor v ≤ f := by
        have := fuelForFields_pos fs; omega
      have hfs : fuelForFields fs ≤ f := by
        have := fuelFor_pos v; omega
      rw [show Json.serPair k v ++ (Json.serFieldsTail fs ++ 125 :: rest)
            = 34 :: (escBytes k
                ++ 34 :: (58 :: (Json.ser v ++ (Json.serFieldsTail fs ++ 125 :: rest)))) by
          rw [Json.serPair]; simp]
      rw [parseObjMember.eq_def]
      simp only [reduceIte]
      rw [parseStrBody_esc]
      simp only [Option.bind_eq_bind, Option.some_bind, List.nil_append]
      simp only [skipWsL58]
      simp only [reduceIte]
      rw [ihV v (Json.serFieldsTail fs ++ 125 :: rest) hv (delim_tail_obj fs rest)]
      simp only [Option.bind_eq_bind, Option.some_bind]
      rw [ihF2 fs (acc ++ [(k, v)]) rest hfs hD]
      simp
    -- parseObjRest
    · intro fs acc rest hfuel hD
      cases fs with
      | nil =>
        rw [serFieldsTail_nil, List.nil_append, parseObjRest.eq_def]
        simp only [skipWsL125]
        simp
      | cons kv fs =>
        obtain ⟨k, v⟩ := kv
        have hkv : fuelFor v + fuelForFields fs ≤ f := by
          simp [fuelForFields] at hfuel; omega
        rw [serFieldsTail_cons, List.cons_append, parseObjRest.eq_def]
        simp only [skipWsL44]
        simp only [reduceIte]
        rw [List.append_assoc]
        have hskip : skipWs (Json.serPair k v ++ (Json.serFieldsTail fs ++ 125 :: rest))
            = Json.serPair k v ++ (Json.serFieldsTail fs ++ 125 :: rest) := by
          rw [show Json.serPair k v ++ (Json.serFieldsTail fs ++ 125 :: rest)
                = 34 :: ((escBytes k ++ 34 :: 58 :: Json.ser v)
                    ++ (Json.serFieldsTail fs ++ 125 :: rest)) by
              rw [Json.serPair]; rfl]
          exact skipWsL34 _
        rw [hskip, ihM k v fs acc rest hkv hD]

theorem intToDec_ne_nil (n : Int) : intToDec n ≠ [] := by
  by_cases hn : n < 0
  · rw [intToDec, if_pos hn]; simp
  · rw [intToDec, if_neg hn]; exact (natToDec_digits n.natAbs).2

theorem serPair_length (k : List Nat) (v : Json) :
    (Json.serPair k v).length = 3 + (escBytes k).length + (Json.ser v).length := by
  simp [Json.serPair]; omega

theorem fuelFor_le : ∀ n : Nat,
    (∀ v, fuelFor v = n → fuelFor v ≤ 2 * (Json.ser v).length) ∧
    (∀ xs, fuelForElems xs = n →
      fuelForElems xs ≤ 2 * (Json.serElems xs).length + 3 ∧
        fuelForElems xs ≤ 2 * (Json.serElemsTail xs).length + 2) ∧
    (∀ fs, fuelForFields fs = n →
      fuelForFields fs ≤ 2 * (Json.serFields fs).length + 3 ∧
        fuelForFields fs ≤ 2 * (Json.serFieldsTail fs).length + 2) := by
  intro n
  induction n using Nat.strong_induction_on with
  | _ n ih =>
    refine ⟨?_, ?_, ?_⟩
    · intro v hv
      cases v with
      | null => rw [ser_null]; simp [fuelFor]
      | bool b => cases b
                  · rw [ser_false]; simp [fuelFor]
                  · rw [ser_true]; simp [fuelFor]
      | num m =>
        rw [ser_num]
        have := intToDec_ne_nil m
        have hlen : 1 ≤ (intToDec m).length := by
          cases h : intToDec m with
          | nil => exact absurd h this
          | cons a t => simp
        simp [fuelFor]; omega
      | str s =>
        rw [ser_str]
        simp [fuelFor]
        omega
      | arr xs =>
        have hlt : fuelForElems xs < n := by
          subst hv; simp [fuelFor]
        have hB := ((ih _ hlt).2.1 xs rfl).1
        rw [ser_arr]
        simp only [fuelFor, List.length_cons, List.length_append,
          List.length_singleton]
        omega
      | obj fs =>
        have hlt : fuelForFields fs < n := by
          subst hv; simp [fuelFor]
        have hC := ((ih _ hlt).2.2 fs rfl).1
        rw [ser_obj]
        simp only [fuelFor, List.length_cons, List.length_append,
          List.length_singleton]
        omega
    · intro xs hxs
      cases xs with
      | nil =>
        rw [serElems_nil, serElemsTail_nil]
        simp [fuelForElems]
      | cons x xs =>
        have hx : fuelFor x < n := by
          subst hxs; simp [fuelForElems]
          have := fuelForElems_pos xs; omega
        have hxs' : fuelForElems xs < n := by
          subst hxs; simp [fuelForElems]
          have := fuelFor_pos x; omega
        have hA := (ih _ hx).1 x rfl
        have hD := ((ih _ hxs').2.1 xs rfl).2
        rw [serElems_cons, serElemsTail_cons]
        simp only [fuelForElems, List.length_append, List.length_cons]
        omega
    · intro fs hfs
      cases fs with
      | nil =>
        rw [serFields_nil, serFieldsTail_nil]
        simp [fuelForFields]
      | cons kv fs =>
        obtain ⟨k, v⟩ := kv
        have hv : fuelFor v < n := by
          subst hfs; simp [fuelForFields]
          have := fuelForFields_pos fs; omega
        have hfs' : fuelForFields fs < n := by
          subst hfs; simp [fuelForFields]
          have := fuelFor_pos v; omega
        have hA := (ih _ hv).1 v rfl
        have hE := ((ih _ hfs').2.2 fs rfl).2
        have hP := serPair_length k v
        rw [serFields_cons, serFieldsTail_cons]
        simp only [fuelForFields, List.length_append, List.length_cons]
        omega

/-- Serialize-then-parse roundtrip: `JSON.parse(JSON.stringify(v))`
recovers `v` exactly. -/
theorem jsonParse_ser (v : Json) : jsonParse (Json.ser v) = some v := by
  have hb : fuelFor v ≤ 2 * (Json.ser v).length := (fuelFor_le (fuelFor v)).1 v rfl
  have hp := (parseRound (2 * (Json.ser v).length + 2)).1 v [] (by omega) trivial
  rw [List.append_nil] at hp
  rw [jsonParse, hp]
  simp [skipWs]

/-- Serialization is injective (an immediate corollary of the roundtrip),
which gives decidable equality of JSON values. -/
theorem ser_inj {a b : Json} (h : Json.ser a = Json.ser b) : a = b := by
  have ha := jsonParse_ser a
  rw [h, jsonParse_ser b] at ha
  exact (Option.some.injEq b a ▸ ha).symm

instance : DecidableEq Json := fun a b =>
  decidable_of_iff (Json.ser a = Json.ser b) ⟨ser_inj, fun h => h ▸ rfl⟩

/-! ### Framing (`src/lsp/framing.ts`)

`encodeMessage` prefixes the serialized body with a `Content-Length`
header computed from its byte length.  `readMessages` accumulates chunks
into a buffer and repeatedly: finds the first `\r\n\r\n`, parses the
header block for a `Content-Length` (throwing when absent or non-finite),
waits for the declared body length, slices the body and `JSON.parse`s it
(throwing on bad JSON).  When the chunk stream ends, any incomplete frame
left in the buffer is silently discarded. -/

/-- `encodeMessage`: `Content-Length: ${body.length}\r\n\r\n` + body. -/
def encodeMessage (m : Json) : List Nat :=
  let body := Json.ser m
  asciiBytes "Content-Length: " ++ natToDec body.length ++ [13, 10, 13, 10] ++ body

/-- JavaScript string whitespace recognized by `trim()` (ASCII fragment). -/
def wsByte (b : Nat) : Bool :=
  b = 9 || b = 10 || b = 11 || b = 12 || b = 13 || b = 32

/-- `String.prototype.trim`. -/
def jsTrim (l : List Nat) : List Nat :=
  ((l.dropWhile wsByte).reverse.dropWhile wsByte).reverse

/-- ASCII lowercasing (`toLowerCase` restricted to the byte range that
matters for the `content-length` comparison). -/
def lowerAscii (b : Nat) : Nat :=
  if 65 ≤ b ∧ b ≤ 90 then b + 32 else b

/-- Split on the two-byte sequence `\r\n` (JavaScript `split("\r\n")`). -/
def splitCrLf : List Nat → List (List Nat)
  | [] => [[]]
  | [b] => [[b]]
  | b :: c :: rest =>
    if b = 13 ∧ c = 10 then [] :: splitCrLf rest
    else
      match splitCrLf (c :: rest) with
      | [] => [[b]]
      | l :: ls => (b :: l) :: ls

/-- Split on a single byte (JavaScript `split(":")`). -/
def splitOnByte (sep : Nat) : List Nat → List (List Nat)
  | [] => [[]]
  | b :: rest =>
    if b = sep then [] :: splitOnByte sep rest
    else
      match splitOnByte sep rest with
      | [] => [[b]]
      | l :: ls => (b :: l) :: ls

/-- Exact rational value of a finite JavaScript number, kept as an
unnormalized numerator/denominator pair (the denominator is always
positive by construction).  Content lengths are small integers in
practice, where IEEE doubles are exact, so the exact-rational idealization
is faithful. -/
structure JSNum where
  num : Int
  den : Nat
deriving DecidableEq

/-- Embed a natural number. -/
def JSNum.ofNat (n : Nat) : JSNum := ⟨n, 1⟩

/-- `n + q` with a natural left operand. -/
def JSNum.natAdd (n : Nat) (q : JSNum) : JSNum := ⟨n * q.den + q.num, q.den⟩

/-- `n < q` with a natural left operand. -/
def JSNum.natLt (n : Nat) (q : JSNum) : Bool := n * q.den < q.num

/-- Truncation toward zero (JavaScript `ToIntegerOrInfinity`);
`Int.div` is the truncating division. -/
def JSNum.trunc (q : JSNum) : Int := Int.div q.num (q.den : Int)

/-- `q * 10 ^ e` for an integer exponent. -/
def JSNum.mul10pow (q : JSNum) (e : Int) : JSNum :=
  if 0 ≤ e then ⟨q.num * (10 ^ e.toNat : Nat), q.den⟩
  else ⟨q.num, q.den * 10 ^ (-e).toNat⟩

/-- Value of a digit byte in the given radix, if valid. -/
def digitValR (radix b : Nat) : Option Nat :=
  match hexVal b with
  | some v => if v < radix then some v else none
  | none => none

/-- Value of a nonempty all-valid digit run in the given radix
(`Number("0x…")` and friends); `none` models NaN. -/
def radixVal (radix : Nat) (ds : List Nat) : Option JSNum :=
  if ds.isEmpty then none
  else
    ds.foldl
      (fun acc b =>
        match acc, digitValR radix b with
        | some a, some v => some (a * radix + v)
        | _, _ => none)
      (some 0)
    |>.map JSNum.ofNat

/-- The significand of a decimal literal with integer digits `ip` and
fraction digits `fp`, carrying the sign. -/
def decSignificand (sgn : Int) (ip fp : List Nat) : JSNum :=
  ⟨sgn * (digitsVal ip * 10 ^ fp.length + digitsVal fp), 10 ^ fp.length⟩

/-- Exponent suffix of a decimal literal: digits only, to end of string. -/
def expApply (sgn : Int) (ip fp : List Nat) (ed : List Nat) (es : Int) : Option JSNum :=
  let p := takeDigits ed
  if p.1.isEmpty then none
  else
    match p.2 with
    | [] => some ((decSignificand sgn ip fp).mul10pow (es * (digitsVal p.1 : Int)))
    | _ => none

/-- Unsigned part of a decimal `Number()` literal: digits, optional
fraction, optional exponent; `Infinity` and malformed input give `none`
(standing for NaN or an infinity, neither of which is finite). -/
def decLitNoSign (u : List Nat) (sgn : Int) : Option JSNum :=
  if u = asciiBytes "Infinity" then none
  else
    let p := takeDigits u
    let ip := p.1
    let q :=
      match p.2 with
      | 46 :: r => takeDigits r
      | _ => ([], p.2)
    let fp := q.1
    if ip.isEmpty ∧ fp.isEmpty then none
    else
      match q.2 with
      | [] => some (decSignificand sgn ip fp)
      | e :: r3 =>
        if e = 101 || e = 69 then
          match r3 with
          | 45 :: r4 => expApply sgn ip fp r4 (-1)
          | 43 :: r4 => expApply sgn ip fp r4 1
          | _ => expApply sgn ip fp r3 1
        else none

/-- Signed decimal `Number()` literal. -/
def decLitVal (t : List Nat) : Option JSNum :=
  match t with
  | [] => none
  | a :: r =>
    if a = 45 then decLitNoSign r (-1)
    else if a = 43 then decLitNoSign r 1
    else decLitNoSign (a :: r) 1

/-- `Number(s)` restricted to finite results: `some q` when the string is
a finite numeral, `none` for NaN and the infinities (exactly the cases
`Number.isFinite` rejects).  The empty (trimmed) string is `0`; `0x`/`0o`/
`0b` prefixes select a radix; otherwise the signed decimal grammar. -/
def jsNumberFinite (s : List Nat) : Option JSNum :=
  match jsTrim s with
  | [] => some (JSNum.ofNat 0)
  | a :: rest =>
    if a = 48 then
      match rest with
      | b :: ds =>
        if b = 120 || b = 88 then radixVal 16 ds
        else if b = 111 || b = 79 then radixVal 8 ds
        else if b = 98 || b = 66 then radixVal 2 ds
        else decLitVal (a :: rest)
      | [] => decLitVal [a]
    else decLitVal (a :: rest)

/-- `parseContentLength`: scan header lines for the first
`content-length` key (case-insensitive) and return its finite numeric
value, `null` otherwise. -/
def parseCLLines : List (List Nat) → Option JSNum
  | [] => none
  | line :: rest =>
    match splitOnByte 58 line with
    | [] => parseCLLines rest
    | [_] => parseCLLines rest
    | k :: v :: _ =>
      if k.isEmpty || v.isEmpty then parseCLLines rest
      else if k.map lowerAscii = asciiBytes "content-length" then
        jsNumberFinite (jsTrim v)
      else parseCLLines rest

/-- `parseContentLength` applied to the raw header block bytes. -/
def parseContentLength (header : List Nat) : Option JSNum :=
  parseCLLines (splitCrLf header)

/-- Index of the first occurrence of `\r\n\r\n` (`buffer.indexOf`). -/
def findSepIdx : List Nat → Option Nat
  | [] => none
  | b :: rest =>
    if b = 13 then
      match rest with
      | 10 :: 13 :: 10 :: _ => some 0
      | _ => (findSepIdx rest).map (· + 1)
    else (findSepIdx rest).map (· + 1)

/-- `buffer.slice(s, e)` with an integer start inside the buffer and an
arbitrary (possibly fractional or negative) end, following the
`TypedArray#subarray` coercion rules. -/
def jsSliceQ (l : List Nat) (s : Nat) (e : JSNum) : List Nat :=
  let len : Int := l.length
  let e' : Int := if e.trunc < 0 then max (len + e.trunc) 0 else min e.trunc len
  (l.drop s).take (e' - s).toNat

/-- `buffer.slice(e)`: suffix from a coerced start position. -/
def jsDropQ (l : List Nat) (e : JSNum) : List Nat :=
  let len : Int := l.length
  let s' : Int := if e.trunc < 0 then max (len + e.trunc) 0 else min e.trunc len
  l.drop s'.toNat

/-- The ways the decode loop can stop abnormally: a complete header block
without a usable `Content-Length` (the `throw` in `readMessages`), a
complete body that fails `JSON.parse`, or fuel exhaustion of the model
(reachable only with negative declared lengths). -/
inductive DecodeErr where
  | framingErr (header : List Nat) : DecodeErr
  | badJson (body : List Nat) : DecodeErr
  | noFuel : DecodeErr
deriving DecidableEq

/-- The inner `while (true)` of `readMessages`: consume as many complete
frames from the buffer as possible.  Returns the decoded messages, the
remaining buffer, and the error that stopped the loop, if any. -/
def drainBuffer : Nat → List Nat → List Json × List Nat × Option DecodeErr
  | 0, buffer => ([], buffer, some DecodeErr.noFuel)
  | fuel + 1, buffer =>
    match findSepIdx buffer with
    | none => ([], buffer, none)
    | some headerEnd =>
      let header := buffer.take headerEnd
      match parseContentLength header with
      | none => ([], buffer, some (DecodeErr.framingErr header))
      | some cl =>
        let messageStart := headerEnd + 4
        let messageEnd : JSNum := JSNum.natAdd messageStart cl
        if JSNum.natLt buffer.length messageEnd then ([], buffer, none)
        else
          let body := jsSliceQ buffer messageStart messageEnd
          match jsonParse body with
          | none => ([], buffer, some (DecodeErr.badJson body))
          | some m =>
            let r := drainBuffer fuel (jsDropQ buffer messageEnd)
            (m :: r.1, r.2.1, r.2.2)

/-- `readMessages` over a list of chunks: grow the buffer per chunk, drain
it, stop at the first error; at end of stream the leftover buffer is
dropped without error. -/
def readChunks : List (List Nat) → List Nat → List Json × Option DecodeErr
  | [], _buffer => ([], none)
  | c :: cs, buffer =>
    let buf := buffer ++ c
    let r := drainBuffer (buf.length + 1) buf
    match r.2.2 with
    | some e => (r.1, some e)
    | none =>
      let r' := readChunks cs r.2.1
      (r.1 ++ r'.1, r'.2)

/-- Full decode of a chunked byte stream. -/
def decodeChunks (chunks : List (List Nat)) : List Json × Option DecodeErr :=
  readChunks chunks []

example :
    decodeChunks [encodeMessage (Json.obj [(asciiBytes "id", Json.num 1)])]
      = ([Json.obj [(asciiBytes "id", Json.num 1)]], none) := by decide

example :
    decodeChunks [asciiBytes "Content-Length: 5\r\n\r\nab"] = ([], none) := by decide

example :
    decodeChunks [asciiBytes "X: 1\r\n\r\n"]
      = ([], some (DecodeErr.framingErr (asciiBytes "X: 1"))) := by decide

/-! ### Framing lemmas -/

/-- The header block `encodeMessage` writes for a body of `n` bytes. -/
def clHeader (n : Nat) : List Nat :=
  asciiBytes "Content-Length: " ++ natToDec n

/-- A frame around raw body bytes. -/
def encodeBody (body : List Nat) : List Nat :=
  clHeader body.length ++ [13, 10, 13, 10] ++ body

theorem encodeMessage_eq_encodeBody (m : Json) :
    encodeMessage m = encodeBody (Json.ser m) := by
  simp [encodeMessage, encodeBody, clHeader]

/-- Concatenated frames of a message list. -/
def framesBytes : List Json → List Nat
  | [] => []
  | m :: ms => encodeMessage m ++ framesBytes ms

theorem clHeader_no13 (n : Nat) : ∀ b ∈ clHeader n, ¬(b = 13) := by
  intro b hb
  simp only [clHeader, List.mem_append] at hb
  rcases hb with hb | hb
  · simp [asciiBytes] at hb
    omega
  · have := (natToDec_digits n).1 b hb
    simp [isDigit] at this
    omega

theorem findSep_at (hdr tail : List Nat) (h : ∀ b ∈ hdr, ¬(b = 13)) :
    findSepIdx (hdr ++ 13 :: 10 :: 13 :: 10 :: tail) = some hdr.length := by
  induction hdr with
  | nil => simp [findSepIdx]
  | cons b hdr ih =>
    have hb : ¬(b = 13) := h b (by simp)
    rw [List.cons_append, findSepIdx.eq_def]
    simp only [if_neg hb]
    rw [ih (fun x hx => h x (by simp [hx]))]
    simp

theorem splitOnByte_no (sep : Nat) (l : List Nat) (h : ∀ b ∈ l, ¬(b = sep)) :
    splitOnByte sep l = [l] := by
  induction l with
  | nil => rfl
  | cons b l ih =>
    have hb : ¬(b = sep) := h b (by simp)
    rw [splitOnByte.eq_def]
    simp only [if_neg hb]
    rw [ih (fun x hx => h x (by simp [hx]))]

theorem splitOnByte_break (sep : Nat) (l₁ l₂ : List Nat)
    (h : ∀ b ∈ l₁, ¬(b = sep)) :
    splitOnByte sep (l₁ ++ sep :: l₂) = l₁ :: splitOnByte sep l₂ := by
  induction l₁ with
  | nil => simp [splitOnByte]
  | cons b l₁ ih =>
    have hb : ¬(b = sep) := h b (by simp)
    rw [List.cons_append, splitOnByte.eq_def]
    simp only [if_neg hb]
    rw [ih (fun x hx => h x (by simp [hx]))]

theorem splitCrLf_no13 (l : List Nat) (h : ∀ b ∈ l, ¬(b = 13)) :
    splitCrLf l = [l] := by
  induction l with
  | nil => rfl
  | cons b l ih =>
    have hb : ¬(b = 13) := h b (by simp)
    match l with
    | [] => rfl
    | c :: rest =>
      rw [splitCrLf.eq_def]
      simp only [if_neg (show ¬(b = 13 ∧ c = 10) from fun hc => hb hc.1)]
      rw [ih (fun x hx => h x (by simp [hx]))]

theorem dropWhile_none {p : Nat → Bool} (l : List Nat)
    (h : ∀ b ∈ l, p b = false) : l.dropWhile p = l := by
  cases l with
  | nil => rfl
  | cons b l => simp [List.dropWhile_cons, h b (by simp)]

theorem jsTrim_of_nonWs (l : List Nat) (h : ∀ b ∈ l, wsByte b = false) :
    jsTrim l = l := by
  rw [jsTrim, dropWhile_none l h,
    dropWhile_none l.reverse (fun b hb => h b (List.mem_reverse.mp hb)),
    List.reverse_reverse]

theorem digits_nonWs (ds : List Nat) (h : ∀ b ∈ ds, isDigit b = true) :
    ∀ b ∈ ds, wsByte b = false := by
  intro b hb
  have := h b hb
  simp [isDigit] at this
  simp [wsByte]
  omega

theorem jsTrim_space_digits (ds : List Nat) (h : ∀ b ∈ ds, isDigit b = true) :
    jsTrim (32 :: ds) = ds := by
  rw [jsTrim, List.dropWhile_cons, if_pos (show wsByte 32 = true from rfl),
    dropWhile_none ds (digits_nonWs ds h),
    dropWhile_none ds.reverse
      (fun b hb => digits_nonWs ds h b (List.mem_reverse.mp hb)),
    List.reverse_reverse]

theorem decLitVal_digits (ds : List Nat) (hds : ∀ b ∈ ds, isDigit b = true)
    (hne : ds ≠ []) :
    decLitVal ds = some ⟨(digitsVal ds : Int), 1⟩ := by
  match ds, hne with
  | d :: t, _ =>
    have hd : isDigit d = true := hds d (by simp)
    have hd' : 48 ≤ d ∧ d ≤ 57 := by simpa [isDigit] using hd
    rw [decLitVal]
    rw [if_neg (by omega), if_neg (by omega)]
    rw [decLitNoSign]
    rw [if_neg (by
      intro hcontra
      have : d = 73 := by
        have := congrArg (fun l => l.headD 0) hcontra
        simpa [asciiBytes] using this
      omega)]
    have htake : takeDigits (d :: t) = (d :: t, []) := by
      have := takeDigits_exact (d :: t) [] hds trivial
      simpa using this
    simp only [htake]
    rw [if_neg (by simp)]
    simp [decSignificand, digitsVal]

theorem natToDec_no_leading_zero (n : Nat) (hn : 10 ≤ n) :
    ∃ d t, natToDec n = d :: t ∧ 49 ≤ d ∧ d ≤ 57 := by
  have main : ∀ fuel m, m < fuel → 1 ≤ m →
      ∃ d t, natDecDigits fuel m = d :: t ∧ 49 ≤ d ∧ d ≤ 57 := by
    intro fuel
    induction fuel with
    | zero => intro m h; omega
    | succ f ih =>
      intro m hm hm1
      by_cases h10 : m < 10
      · exact ⟨48 + m, [], by simp [natDecDigits, h10], by omega, by omega⟩
      · obtain ⟨d, t, hdt, hd⟩ := ih (m / 10) (by omega) (by omega)
        refine ⟨d, t ++ [48 + m % 10], ?_, hd.1, hd.2⟩
        simp [natDecDigits, h10, hdt]
  obtain ⟨d, t, hdt, h1, h2⟩ := main (n + 1) n (by omega) (by omega)
  exact ⟨d, t, hdt, h1, h2⟩

theorem jsNumberFinite_natToDec (n : Nat) :
    jsNumberFinite (natToDec n) = some ⟨(n : Int), 1⟩ := by
  have hds := (natToDec_digits n).1
  have htrim : jsTrim (natToDec n) = natToDec n :=
    jsTrim_of_nonWs _ (digits_nonWs _ hds)
  by_cases h0 : n = 0
  · subst h0; decide
  · by_cases h10 : n < 10
    · have hform : natToDec n = [48 + n] := by
        rw [natToDec, natDecDigits]
        simp [h10]
      have htrim2 : jsTrim [48 + n] = [48 + n] := by rw [← hform]; exact htrim
      simp only [jsNumberFinite, hform, htrim2, ite_self]
      rw [decLitVal_digits [48 + n] (by
        intro b hb
        simp at hb
        subst hb
        simp only [isDigit, Bool.and_eq_true, decide_eq_true_eq]
        constructor <;> omega) (by simp)]
      have hval : digitsVal [48 + n] = n := by simp [digitsVal]
      rw [hval]
    · obtain ⟨d, t, hdt, h1, h2⟩ := natToDec_no_leading_zero n (by omega)
      have htrim2 : jsTrim (d :: t) = d :: t := by rw [← hdt]; exact htrim
      simp only [jsNumberFinite, hdt, htrim2]
      rw [if_neg (by omega), ← hdt,
        decLitVal_digits _ hds (natToDec_digits n).2, digitsVal_natToDec]

theorem parseContentLength_canonical (n : Nat) :
    parseContentLength (clHeader n) = some ⟨(n : Int), 1⟩ := by
  have hline : clHeader n
      = asciiBytes "Content-Length" ++ 58 :: (32 :: natToDec n) := by
    rw [clHeader, show asciiBytes "Content-Length: "
      = asciiBytes "Content-Length" ++ 58 :: [32] by decide]
    simp
  have hno13 := clHeader_no13 n
  have hsplit : splitOnByte 58 (clHeader n)
      = [asciiBytes "Content-Length", 32 :: natToDec n] := by
    rw [hline, splitOnByte_break 58 _ _ (by decide),
      splitOnByte_no 58 (32 :: natToDec n) (by
        intro b hb
        simp at hb
        rcases hb with hb | hb
        · omega
        · have := (natToDec_digits n).1 b hb
          simp [isDigit] at this
          omega)]
  rw [parseContentLength, splitCrLf_no13 _ hno13]
  simp only [parseCLLines, hsplit]
  rw [if_neg (show ¬((asciiBytes "Content-Length").isEmpty
        || (32 :: natToDec n).isEmpty) = true by
      simp [asciiBytes]),
    if_pos (show (asciiBytes "Content-Length").map lowerAscii
        = asciiBytes "content-length" by decide),
    jsTrim_space_digits _ (natToDec_digits n).1, jsNumberFinite_natToDec]

theorem JSNum.trunc_intOne (k : Int) : JSNum.trunc ⟨k, 1⟩ = k := by
  simp [JSNum.trunc, Int.div_one]

theorem natAdd_trunc (m : Nat) (k : Int) :
    (JSNum.natAdd m ⟨k, 1⟩).trunc = m + k := by
  show JSNum.trunc ⟨((m * 1 : Nat) : Int) + k, 1⟩ = m + k
  rw [show (((m * 1 : Nat) : Int) + k) = (m : Int) + k by push_cast; ring]
  exact JSNum.trunc_intOne _

theorem natLt_intOne (n : Nat) (k : Int) :
    JSNum.natLt n ⟨k, 1⟩ = decide ((n : Int) < k) := by
  simp [JSNum.natLt]

theorem jsSliceQ_exact (pre mid post : List Nat) (e : JSNum)
    (he : e.trunc = pre.length + mid.length) :
    jsSliceQ (pre ++ (mid ++ post)) pre.length e = mid := by
  simp only [jsSliceQ, he]
  rw [if_neg (by omega)]
  rw [show min ((pre.length : Int) + mid.length)
        ((pre ++ (mid ++ post)).length : Int) = pre.length + mid.length by
    simp only [List.length_append]
    push_cast
    omega]
  rw [List.drop_left]
  rw [show ((pre.length : Int) + mid.length - pre.length).toNat = mid.length by omega]
  rw [List.take_left]

theorem jsDropQ_exact (pre post : List Nat) (e : JSNum)
    (he : e.trunc = pre.length) :
    jsDropQ (pre ++ post) e = post := by
  simp only [jsDropQ, he]
  rw [if_neg (by omega)]
  rw [show min ((pre.length : Nat) : Int) ((pre ++ post).length : Int)
        = pre.length by
    simp only [List.length_append]
    push_cast
    omega]
  rw [show ((pre.length : Nat) : Int).toNat = pre.length by omega]
  rw [List.drop_left]

theorem drain_body (fuel : Nat) (body tail : List Nat) :
    drainBuffer (fuel + 1) (encodeBody body ++ tail)
      = match jsonParse body with
        | none => ([], encodeBody body ++ tail, some (DecodeErr.badJson body))
        | some m =>
          (m :: (drainBuffer fuel tail).1, (drainBuffer fuel tail).2.1,
            (drainBuffer fuel tail).2.2) := by
  have hB : encodeBody body ++ tail
      = clHeader body.length ++ 13 :: 10 :: 13 :: 10 :: (body ++ tail) := by
    simp [encodeBody]
  have hsep : findSepIdx (encodeBody body ++ tail)
      = some (clHeader body.length).length := by
    rw [hB]; exact findSep_at _ _ (clHeader_no13 _)
  have htake : (encodeBody body ++ tail).take (clHeader body.length).length
      = clHeader body.length := by
    rw [hB, show clHeader body.length ++ 13 :: 10 :: 13 :: 10 :: (body ++ tail)
        = clHeader body.length ++ (13 :: 10 :: 13 :: 10 :: (body ++ tail)) from rfl]
    exact List.take_left _ _
  have htrunc : (JSNum.natAdd ((clHeader body.length).length + 4)
      ⟨(body.length : Int), 1⟩).trunc
      = ((clHeader body.length).length : Int) + 4 + body.length := by
    rw [natAdd_trunc]
    push_cast
    ring
  have hlenB : (encodeBody body ++ tail).length
      = (clHeader body.length).length + 4 + body.length + tail.length := by
    rw [hB]
    simp only [List.length_append, List.length_cons]
    omega
  have hlt : JSNum.natLt (encodeBody body ++ tail).length
      (JSNum.natAdd ((clHeader body.length).length + 4)
        ⟨(body.length : Int), 1⟩) = false := by
    simp only [JSNum.natLt, JSNum.natAdd, mul_one, decide_eq_false_iff_not]
    rw [hlenB]
    push_cast
    omega
  have hslice : jsSliceQ (encodeBody body ++ tail)
      ((clHeader body.length).length + 4)
      (JSNum.natAdd ((clHeader body.length).length + 4)
        ⟨(body.length : Int), 1⟩) = body := by
    have hB2 : encodeBody body ++ tail
        = (clHeader body.length ++ [13, 10, 13, 10]) ++ (body ++ tail) := by
      rw [hB]; simp
    rw [hB2, show (clHeader body.length).length + 4
        = (clHeader body.length ++ [13, 10, 13, 10]).length by
      simp [List.length_append]]
    exact jsSliceQ_exact _ _ _ _ (by rw [natAdd_trunc])
  have hdrop : jsDropQ (encodeBody body ++ tail)
      (JSNum.natAdd ((clHeader body.length).length + 4)
        ⟨(body.length : Int), 1⟩) = tail := by
    have hB3 : encodeBody body ++ tail
        = (clHeader body.length ++ [13, 10, 13, 10] ++ body) ++ tail := by
      rw [hB]; simp
    rw [hB3]
    exact jsDropQ_exact _ _ _ (by
      rw [natAdd_trunc]
      simp only [List.length_append, List.length_cons, List.length_nil]
      push_cast
      omega)
  rw [drainBuffer.eq_def]
  simp only [hsep, htake, parseContentLength_canonical, hlt, Bool.false_eq_true,
    if_false, hslice, hdrop]

/-- A trailing byte sequence that never completes a frame: either no
header terminator ever appears, or a well-formed header declares more
body bytes than follow (the stream ends mid-body). -/
def IncompleteTail (tail : List Nat) : Prop :=
  findSepIdx tail = none ∨
    ∃ L shortBody, tail = clHeader L ++ 13 :: 10 :: 13 :: 10 :: shortBody ∧
      shortBody.length < L

theorem drain_incomplete (fuel : Nat) (tail : List Nat)
    (h : IncompleteTail tail) :
    drainBuffer (fuel + 1) tail = ([], tail, none) := by
  rcases h with h | ⟨L, shortBody, htail, hshort⟩
  · rw [drainBuffer.eq_def]
    simp only [h]
  · have hsep : findSepIdx tail = some (clHeader L).length := by
      rw [htail]; exact findSep_at _ _ (clHeader_no13 _)
    have htake : tail.take (clHeader L).length = clHeader L := by
      rw [htail]
      exact List.take_left _ _
    have hlen : tail.length = (clHeader L).length + 4 + shortBody.length := by
      rw [htail]
      simp only [List.length_append, List.length_cons]
      omega
    have hlt : JSNum.natLt tail.length
        (JSNum.natAdd ((clHeader L).length + 4) ⟨(L : Int), 1⟩) = true := by
      simp only [JSNum.natLt, JSNum.natAdd, mul_one, decide_eq_true_eq]
      rw [hlen]
      push_cast
      omega
    rw [drainBuffer.eq_def]
    simp only [hsep, htake, parseContentLength_canonical, hlt, if_true]

theorem framesBytes_len (msgs : List Json) :
    msgs.length ≤ (framesBytes msgs).length := by
  induction msgs with
  | nil => simp [framesBytes]
  | cons m ms ih =>
    have : 1 ≤ (encodeMessage m).length := by
      simp [encodeMessage, asciiBytes]
    simp only [framesBytes, List.length_append, List.length_cons]
    omega

theorem drain_frames : ∀ (msgs : List Json) (fuel : Nat) (tail : List Nat),
    msgs.length < fuel → IncompleteTail tail →
    drainBuffer fuel (framesBytes msgs ++ tail) = (msgs, tail, none) := by
  intro msgs
  induction msgs with
  | nil =>
    intro fuel tail hf hI
    match fuel, hf with
    | g + 1, _ =>
      rw [show framesBytes [] ++ tail = tail by simp [framesBytes]]
      exact drain_incomplete g tail hI
  | cons m ms ih =>
    intro fuel tail hf hI
    match fuel, hf with
    | g + 1, hf' =>
      rw [show framesBytes (m :: ms) ++ tail
          = encodeBody (Json.ser m) ++ (framesBytes ms ++ tail) by
        simp [framesBytes, encodeMessage_eq_encodeBody]]
      rw [drain_body g (Json.ser m) (framesBytes ms ++ tail)]
      rw [jsonParse_ser m]
      rw [ih g tail (by simp only [List.length_cons] at hf'; omega) hI]

/-- Decoding a stream of well-formed frames followed by an incomplete
tail yields exactly the framed messages and no error: the incomplete tail
is silently discarded at end of stream. -/
theorem decode_wellFormed (msgs : List Json) (tail : List Nat)
    (hI : IncompleteTail tail) :
    decodeChunks [framesBytes msgs ++ tail] = (msgs, none) := by
  have hcount : msgs.length < (framesBytes msgs ++ tail).length + 1 := by
    have := framesBytes_len msgs
    simp only [List.length_append]
    omega
  rw [decodeChunks, readChunks]
  rw [show ([] : List Nat) ++ (framesBytes msgs ++ tail)
      = framesBytes msgs ++ tail by simp]
  rw [drain_frames msgs _ tail hcount hI]
  simp [readChunks]

/-- A complete header block lacking a usable `Content-Length` raises the
framing error, regardless of what follows. -/
theorem decode_headerErr (hdr rest : List Nat)
    (h13 : ∀ b ∈ hdr, ¬(b = 13)) (hcl : parseContentLength hdr = none) :
    decodeChunks [hdr ++ 13 :: 10 :: 13 :: 10 :: rest]
      = ([], some (DecodeErr.framingErr hdr)) := by
  rw [decodeChunks, readChunks]
  rw [show ([] : List Nat) ++ (hdr ++ 13 :: 10 :: 13 :: 10 :: rest)
      = hdr ++ 13 :: 10 :: 13 :: 10 :: rest by simp]
  have hsep := findSep_at hdr rest h13
  have htake : (hdr ++ 13 :: 10 :: 13 :: 10 :: rest).take hdr.length = hdr :=
    List.take_left _ _
  rw [show (hdr ++ 13 :: 10 :: 13 :: 10 :: rest).length + 1
      = ((hdr ++ 13 :: 10 :: 13 :: 10 :: rest).length) + 1 from rfl]
  rw [drainBuffer.eq_def]
  simp only [hsep, htake, hcl]

/-- A complete frame whose body is not valid JSON raises the parse
error. -/
theorem decode_badBody (body : List Nat) (hbad : jsonParse body = none) :
    decodeChunks [encodeBody body] = ([], some (DecodeErr.badJson body)) := by
  rw [decodeChunks, readChunks]
  rw [show ([] : List Nat) ++ encodeBody body = encodeBody body ++ [] by simp]
  rw [show (encodeBody body ++ ([] : List Nat)).length + 1
      = (encodeBody body ++ ([] : List Nat)).length + 1 from rfl]
  rw [drain_body _ body []]
  rw [hbad]

/-- Framing roundtrip: one encoded message decodes to exactly that
message with no error, and the header length is the byte length of the
serialized body. -/
theorem decode_encode (m : Json) :
    decodeChunks [encodeMessage m] = ([m], none) := by
  have h := decode_wellFormed [m] [] (Or.inl rfl)
  rw [show framesBytes [m] ++ [] = encodeMessage m by simp [framesBytes]] at h
  exact h

/-! ### The mux core (`MuxState` in the daemon module)

The daemon's message dispatch is modelled as a pure transition system:
each processed event (an accepted connection, a socket close, a decoded
client or server message, or a diagnostics debounce timer firing) maps a
state to a new state plus the list of writes it performs.  Writers,
backpressure pauses and the idle-shutdown timer carry no routing state
and are not modelled. -/

mutual

/-- JavaScript `String(x)` for the modelled values (used on `method`). -/
def jsToString : Json → List Nat
  | Json.null => asciiBytes "null"
  | Json.bool true => asciiBytes "true"
  | Json.bool false => asciiBytes "false"
  | Json.num n => intToDec n
  | Json.str s => s
  | Json.arr xs => jsToStringItems xs
  | Json.obj _ => asciiBytes "[object Object]"

/-- `Array.prototype.toString`: comma-joined items, nullish items empty. -/
def jsToStringItems : List Json → List Nat
  | [] => []
  | [Json.null] => []
  | [x] => jsToString x
  | Json.null :: xs => 44 :: jsToStringItems xs
  | x :: xs => jsToString x ++ 44 :: jsToStringItems xs

end

/-- Property read with `undefined`/`null` normalized away, as `x == null`
tests do. -/
def jsGet (m : Json) (k : List Nat) : Option Json :=
  match Json.field m k with
  | some Json.null => none
  | o => o

/-- Optional-chained property read `o?.k`. -/
def jsGetO (o : Option Json) (k : List Nat) : Option Json :=
  match o with
  | none => none
  | some Json.null => none
  | some v => Json.field v k

/-- Truthiness of a possibly-absent value. -/
def truthyO : Option Json → Bool
  | none => false
  | some v => Json.truthy v

/-- Association-list update in place (JavaScript `Map.set`). -/
def updA {α β : Type} [DecidableEq α] (k : α) (v : β) :
    List (α × β) → List (α × β)
  | [] => [(k, v)]
  | (k', v') :: rest => if k' = k then (k, v) :: rest else (k', v') :: updA k v rest

/-- Association-list removal (JavaScript `Map.delete`). -/
def eraseA {α β : Type} [DecidableEq α] (k : α) :
    List (α × β) → List (α × β)
  | [] => []
  | (k', v') :: rest => if k' = k then rest else (k', v') :: eraseA k rest

/-- Association-list lookup (JavaScript `Map.get`). -/
def lookupA {α β : Type} [DecidableEq α] (k : α) : List (α × β) → Option β
  | [] => none
  | (k', v) :: rest => if k' = k then some v else lookupA k rest

/-- Set insertion preserving insertion order (JavaScript `Set.add`). -/
def insS {α : Type} [DecidableEq α] (x : α) (s : List α) : List α :=
  if x ∈ s then s else s ++ [x]

/-- Set removal (JavaScript `Set.delete`). -/
def delS {α : Type} [DecidableEq α] (x : α) : List α → List α
  | [] => []
  | y :: r => if y = x then delS x r else y :: delS x r

/-- The behavior a `ServerSpec` contributes to the mux: the optional
`prepareInitialize` hook, whether the diagnostics mode is the
pull-to-push bridge, and the bridge's optional request builder. -/
structure MSpec where
  prepareInit : Option (Json → Json)
  bridgeMode : Bool
  buildRequest : Option (Json → Json)

/-- The initialization state machine. -/
inductive InitState where
  | notStarted : InitState
  | inProgress (primaryClientId : Nat) : InitState
  | done (result : Option Json) (error : Option Json) : InitState
deriving DecidableEq

/-- `DiagnosticsBridge` state: armed debounce timers, in-flight pulls,
the last published diagnostics per URI, URIs queued until init completes,
and the init-done flag.  URI keys are the JSON values the client sent. -/
structure BridgeState where
  debounce : List Json
  inFlight : List Json
  lastPublished : List (Json × List Json)
  pendingAfterInit : List Json
  initDone : Bool
deriving DecidableEq

/-- The mux state: client bookkeeping, the three pending-request tables,
the id counters, the initialization state machine with its deferred
queue, and the bridge. -/
structure MuxState where
  nextClientId : Nat
  clients : List Nat
  primaryClientId : Option Nat
  nextServerRequestId : Int
  pendingClientRequests : List (Int × (Nat × Json))
  pendingInternalRequests : List (Int × Json)
  clientSupportsPullDiagnostics : List (Nat × Bool)
  nextForwardedServerReqId : Int
  pendingServerRequests : List (Int × Json)
  init : InitState
  queuedInit : List (Nat × Json)
  bridge : BridgeState
deriving DecidableEq

/-- A write performed while handling one event. -/
inductive MuxOut where
  | toServer (msg : Json) : MuxOut
  | toClient (c : Nat) (msg : Json) : MuxOut
deriving DecidableEq

/-- The freshly started mux. -/
def initMux : MuxState where
  nextClientId := 1
  clients := []
  primaryClientId := none
  nextServerRequestId := 1
  pendingClientRequests := []
  pendingInternalRequests := []
  clientSupportsPullDiagnostics := []
  nextForwardedServerReqId := -1
  pendingServerRequests := []
  init := InitState.notStarted
  queuedInit := []
  bridge := ⟨[], [], [], [], false⟩

/-- `hasNonPullClients`: some connected client whose recorded capability
flag is falsy. -/
def hasNonPullClients (s : MuxState) : Bool :=
  s.clients.any (fun c =>
    !((lookupA c s.clientSupportsPullDiagnostics).getD false))

/-- `publishDiagnosticsToNonPullClients`: the synthesized notification
written to every connected client not marked as supporting pull
diagnostics. -/
def publishDiagnosticsToNonPullClients (s : MuxState) (uri : Json)
    (diags : List Json) : List MuxOut :=
  (s.clients.filter (fun c =>
    !((lookupA c s.clientSupportsPullDiagnostics).getD false))).map
    (fun c => MuxOut.toClient c (Json.obj
      [(asciiBytes "jsonrpc", Json.str (asciiBytes "2.0")),
       (asciiBytes "method", Json.str (asciiBytes "textDocument/publishDiagnostics")),
       (asciiBytes "params", Json.obj
         [(asciiBytes "uri", uri),
          (asciiBytes "diagnostics", Json.arr diags)])]))

/-- `DiagnosticsBridge.schedule`: skip without non-pull clients, queue
before init-done, otherwise (re)arm the per-URI debounce timer. -/
def bridgeSchedule (s : MuxState) (uri : Json) : MuxState :=
  if !(hasNonPullClients s) then s
  else if !s.bridge.initDone then
    { s with bridge := { s.bridge with
        pendingAfterInit := insS uri s.bridge.pendingAfterInit } }
  else
    { s with bridge := { s.bridge with debounce := insS uri s.bridge.debounce } }

/-- `DiagnosticsBridge.markInitDone`: set the flag, then schedule every
queued URI. -/
def bridgeMarkInitDone (s : MuxState) : MuxState :=
  let queued := s.bridge.pendingAfterInit
  let s1 := { s with bridge := { s.bridge with
      initDone := true, pendingAfterInit := [] } }
  queued.foldl bridgeSchedule s1

/-- `DiagnosticsBridge.onDidClose`: drop all per-URI state. -/
def bridgeOnDidClose (s : MuxState) (uri : Json) : MuxState :=
  { s with bridge := { s.bridge with
      debounce := delS uri s.bridge.debounce,
      lastPublished := eraseA uri s.bridge.lastPublished,
      pendingAfterInit := delS uri s.bridge.pendingAfterInit,
      inFlight := delS uri s.bridge.inFlight } }

/-- The default pull request the bridge builds when the spec supplies no
`buildRequest`. -/
def defaultDiagRequest (uri : Json) : Json :=
  Json.obj
    [(asciiBytes "jsonrpc", Json.str (asciiBytes "2.0")),
     (asciiBytes "method", Json.str (asciiBytes "textDocument/diagnostic")),
     (asciiBytes "params", Json.obj
       [(asciiBytes "textDocument", Json.obj [(asciiBytes "uri", uri)]),
        (asciiBytes "identifier", Json.null),
        (asciiBytes "previousResultId", Json.null)])]

/-- `DiagnosticsBridge.request` plus the mux's `sendDiagnosticsRequest`
sink: mint a server-space id, record it in the internal table, and write
the pull request to the server. -/
def bridgeRequest (sp : MSpec) (s : MuxState) (uri : Json) :
    MuxState × List MuxOut :=
  if uri ∈ s.bridge.inFlight then (s, [])
  else if !(hasNonPullClients s) then (s, [])
  else
    let s1 := { s with bridge := { s.bridge with
        inFlight := insS uri s.bridge.inFlight } }
    let msg := match sp.buildRequest with
      | some f => f uri
      | none => defaultDiagRequest uri
    let n := s1.nextServerRequestId
    ({ s1 with
        nextServerRequestId := n + 1,
        pendingInternalRequests := updA n uri s1.pendingInternalRequests },
      [MuxOut.toServer (Json.setField msg (asciiBytes "id") (Json.num n))])

/-- `Array.isArray` on a possibly-absent value. -/
def isArrO : Option Json → Bool
  | some (Json.arr _) => true
  | _ => false

/-- The items of an array-valued optional field, else empty. -/
def itemsOf : Option Json → List Json
  | some (Json.arr xs) => xs
  | _ => []

/-- The diagnostics array chosen by the bridge from a pull response:
`kind == "full"` with an items array publishes the items, `"unchanged"`
replays the cached items (empty when none), any other items array is
published as is, and anything else publishes empty. -/
def bridgeDiags (result : Option Json) (cached : Option (List Json)) :
    List Json :=
  let kind := jsGetO result (asciiBytes "kind")
  let items := jsGetO result (asciiBytes "items")
  if kind = some (Json.str (asciiBytes "full")) ∧ isArrO items = true then
    itemsOf items
  else if kind = some (Json.str (asciiBytes "unchanged")) then
    cached.getD []
  else if isArrO items = true then itemsOf items
  else []

/-- `DiagnosticsBridge.onServerResponse`: clear in-flight, compute and
cache the diagnostics, publish to non-pull clients when any exist. -/
def bridgeOnServerResponse (s : MuxState) (uri : Json) (msg : Json) :
    MuxState × List MuxOut :=
  let s1 := { s with bridge := { s.bridge with
      inFlight := delS uri s.bridge.inFlight } }
  let result := Json.field msg (asciiBytes "result")
  let diags := bridgeDiags result (lookupA uri s1.bridge.lastPublished)
  let s2 := { s1 with bridge := { s1.bridge with
      lastPublished := updA uri diags s1.bridge.lastPublished } }
  if !(hasNonPullClients s2) then (s2, [])
  else (s2, publishDiagnosticsToNonPullClients s2 uri diags)

/-- `maybeTriggerDiagnosticsBridge` composed with
`DiagnosticsBridge.onFileEvent`: on `didOpen`/`didChange`/`didSave` with
a truthy uri, schedule a pull for that uri (no-op without a bridge). -/
def maybeTriggerBridge (sp : MSpec) (s : MuxState) (method : List Nat)
    (msg : Json) : MuxState :=
  if !sp.bridgeMode then s
  else if method = asciiBytes "textDocument/didOpen" ∨
      method = asciiBytes "textDocument/didChange" ∨
      method = asciiBytes "textDocument/didSave" then
    match jsGetO (jsGetO (jsGet msg (asciiBytes "params")) (asciiBytes "textDocument"))
        (asciiBytes "uri") with
    | some uri => if Json.truthy uri then bridgeSchedule s uri else s
    | none => s
  else s

/-- `recordClientCapabilities`: remember
`Boolean(params?.capabilities?.textDocument?.diagnostic)`. -/
def recordClientCapabilities (s : MuxState) (clientId : Nat) (msg : Json) :
    MuxState :=
  let caps := jsGetO (jsGet msg (asciiBytes "params")) (asciiBytes "capabilities")
  let hasPull := truthyO (jsGetO (jsGetO caps (asciiBytes "textDocument"))
      (asciiBytes "diagnostic"))
  { s with clientSupportsPullDiagnostics := updA clientId hasPull s.clientSupportsPullDiagnostics }

/-- `respondWithCachedInit`: drop if the client is gone; replay the
cached error when non-nullish, else the cached result (an absent result
is omitted on the wire). -/
def respondWithCachedInit (s : MuxState) (clientId : Nat) (id : Json)
    (result error : Option Json) : List MuxOut :=
  if clientId ∉ s.clients then []
  else if !(Json.isNullish error) then
    [MuxOut.toClient clientId (Json.obj
      [(asciiBytes "jsonrpc", Json.str (asciiBytes "2.0")),
       (asciiBytes "id", id),
       (asciiBytes "error", (error.getD Json.null))])]
  else
    [MuxOut.toClient clientId (Json.obj
      ([(asciiBytes "jsonrpc", Json.str (asciiBytes "2.0")),
        (asciiBytes "id", id)] ++
       (match result with
        | some r => [(asciiBytes "result", r)]
        | none => [])))]

/-- `handleInitialize`: record capabilities, then replay / queue /
start the handshake according to the init state. -/
def handleInitReq (sp : MSpec) (s : MuxState) (clientId : Nat) (id : Json)
    (msg : Json) : MuxState × List MuxOut :=
  let s := recordClientCapabilities s clientId msg
  match s.init with
  | InitState.done result error =>
      (s, respondWithCachedInit s clientId id result error)
  | InitState.inProgress _ =>
      ({ s with queuedInit := s.queuedInit ++ [(clientId, id)] }, [])
  | InitState.notStarted =>
      let s1 := { s with
        init := InitState.inProgress clientId,
        primaryClientId :=
          if s.primaryClientId = none then some clientId else s.primaryClientId }
      let n := s1.nextServerRequestId
      let s2 := { s1 with
        nextServerRequestId := n + 1,
        pendingClientRequests := updA n (clientId, id) s1.pendingClientRequests }
      let initForServer := match sp.prepareInit with
        | some hook => hook msg
        | none => msg
      (s2, [MuxOut.toServer (Json.setField initForServer (asciiBytes "id") (Json.num n))])

/-- `onClientRequest`: `initialize` goes to the init handler; any other
request gets a fresh server-space id recorded in
`pendingClientRequests` and is forwarded with that id. -/
def onClientRequest (sp : MSpec) (s : MuxState) (clientId : Nat)
    (method : List Nat) (id : Json) (msg : Json) : MuxState × List MuxOut :=
  if method = asciiBytes "initialize" then handleInitReq sp s clientId id msg
  else
    let n := s.nextServerRequestId
    let s1 := { s with
      nextServerRequestId := n + 1,
      pendingClientRequests := updA n (clientId, id) s.pendingClientRequests }
    (s1, [MuxOut.toServer (Json.setField msg (asciiBytes "id") (Json.num n))])

/-- `onClientNotification`: maybe schedule the bridge, handle `didClose`
cleanup, forward `initialized` only from the primary client, forward
everything else. -/
def onClientNotification (sp : MSpec) (s : MuxState) (clientId : Nat)
    (method : List Nat) (msg : Json) : MuxState × List MuxOut :=
  let s := maybeTriggerBridge sp s method msg
  let s :=
    if method = asciiBytes "textDocument/didClose" then
      match jsGetO (jsGetO (jsGet msg (asciiBytes "params")) (asciiBytes "textDocument"))
          (asciiBytes "uri") with
      | some uri =>
          if Json.truthy uri then
            if sp.bridgeMode then bridgeOnDidClose s uri else s
          else s
      | none => s
    else s
  if method = asciiBytes "initialized" then
    if s.primaryClientId = some clientId then (s, [MuxOut.toServer msg]) else (s, [])
  else (s, [MuxOut.toServer msg])

/-- `onClientResponse`: only numeric ids found in
`pendingServerRequests` are translated back to the server's original id;
everything else is forwarded as is. -/
def onClientResponse (s : MuxState) (id : Json) (msg : Json) :
    MuxState × List MuxOut :=
  match id with
  | Json.num n =>
    (match lookupA n s.pendingServerRequests with
     | some serverId =>
        ({ s with pendingServerRequests := eraseA n s.pendingServerRequests },
          [MuxOut.toServer (Json.setField msg (asciiBytes "id") serverId)])
     | none => (s, [MuxOut.toServer msg]))
  | _ => (s, [MuxOut.toServer msg])

/-- `onClientMessage`: classify by presence of `method` and `id` and
dispatch; unknown shapes are forwarded to the server unchanged. -/
def onClientMessage (sp : MSpec) (s : MuxState) (clientId : Nat) (msg : Json) :
    MuxState × List MuxOut :=
  match jsGet msg (asciiBytes "method"), jsGet msg (asciiBytes "id") with
  | none, some id => onClientResponse s id msg
  | some m, none => onClientNotification sp s clientId (jsToString m) msg
  | some m, some id => onClientRequest sp s clientId (jsToString m) id msg
  | none, none => (s, [MuxOut.toServer msg])

/-- `broadcast`: write a message to every connected client in order. -/
def broadcast (s : MuxState) (msg : Json) : List MuxOut :=
  s.clients.map (fun c => MuxOut.toClient c msg)

/-- `flushQueuedInitialize`: empty the queue and replay the cached init
response to each queued client. -/
def flushQueuedInit (s : MuxState) (result error : Option Json) :
    MuxState × List MuxOut :=
  let queued := s.queuedInit
  let s1 := { s with queuedInit := [] }
  (s1, queued.foldl (fun acc e =>
    acc ++ respondWithCachedInit s1 e.1 e.2 result error) [])

/-- The final delivery step of a routed server response: write to the
issuing client if it is still connected, else drop the message. -/
def deliverToClient (s : MuxState) (c : Nat) (outs : List MuxOut)
    (msg : Json) : MuxState × List MuxOut :=
  if c ∈ s.clients then (s, outs ++ [MuxOut.toClient c msg]) else (s, outs)

/-- `onServerResponse`: internal-table hits feed the bridge; client-table
hits are translated back (with init response caching and queue flushing
on the primary's init reply); strays and non-numeric ids broadcast. -/
def onServerResponse (sp : MSpec) (s : MuxState) (id : Json) (msg : Json) :
    MuxState × List MuxOut :=
  match id with
  | Json.num n =>
    (match lookupA n s.pendingInternalRequests with
     | some uri =>
        let s1 := { s with pendingInternalRequests := eraseA n s.pendingInternalRequests }
        if sp.bridgeMode then bridgeOnServerResponse s1 uri msg else (s1, [])
     | none =>
       match lookupA n s.pendingClientRequests with
       | none => (s, broadcast s msg)
       | some (clientId, originalId) =>
          let s1 := { s with pendingClientRequests := eraseA n s.pendingClientRequests }
          let cacheStep : MuxState × List MuxOut :=
            match s1.init with
            | InitState.inProgress p =>
                if clientId = p then
                  let result := Json.field msg (asciiBytes "result")
                  let error := Json.field msg (asciiBytes "error")
                  let s2 := { s1 with init := InitState.done result error }
                  let (s3, outs) := flushQueuedInit s2 result error
                  (if sp.bridgeMode then bridgeMarkInitDone s3 else s3, outs)
                else (s1, [])
            | _ => (s1, [])
          deliverToClient cacheStep.1 clientId cacheStep.2
            (Json.setField msg (asciiBytes "id") originalId))
  | _ => (s, broadcast s msg)

/-- `onServerRequest`: capability (un)registration is auto-acknowledged,
`workspace/configuration` is auto-answered, anything else goes to the
primary client under a fresh negative id (or gets a method-not-found
error when no client is available). -/
def onServerRequest (s : MuxState) (method : List Nat) (id : Json)
    (msg : Json) : MuxState × List MuxOut :=
  if method = asciiBytes "client/registerCapability" ∨
      method = asciiBytes "client/unregisterCapability" then
    (s, [MuxOut.toServer (Json.obj
      [(asciiBytes "jsonrpc", Json.str (asciiBytes "2.0")),
       (asciiBytes "id", id),
       (asciiBytes "result", Json.null)])])
  else if method = asciiBytes "workspace/configuration" then
    let items := jsGetO (jsGet msg (asciiBytes "params")) (asciiBytes "items")
    let result : Json :=
      if isArrO items then Json.arr ((itemsOf items).map (fun _ => Json.null))
      else Json.arr []
    (s, [MuxOut.toServer (Json.obj
      [(asciiBytes "jsonrpc", Json.str (asciiBytes "2.0")),
       (asciiBytes "id", id),
       (asciiBytes "result", result)])])
  else
    match s.primaryClientId with
    | some p =>
      if p ∈ s.clients then
        let fid := s.nextForwardedServerReqId
        let s1 := { s with
          nextForwardedServerReqId := fid - 1,
          pendingServerRequests := updA fid id s.pendingServerRequests }
        (s1, [MuxOut.toClient p (Json.setField msg (asciiBytes "id") (Json.num fid))])
      else
        (s, [MuxOut.toServer (Json.obj
          [(asciiBytes "jsonrpc", Json.str (asciiBytes "2.0")),
           (asciiBytes "id", id),
           (asciiBytes "error", Json.obj
             [(asciiBytes "code", Json.num (-32601)),
              (asciiBytes "message", Json.str (asciiBytes "No clients connected"))])])])
    | none =>
      (s, [MuxOut.toServer (Json.obj
        [(asciiBytes "jsonrpc", Json.str (asciiBytes "2.0")),
         (asciiBytes "id", id),
         (asciiBytes "error", Json.obj
           [(asciiBytes "code", Json.num (-32601)),
            (asciiBytes "message", Json.str (asciiBytes "No clients connected"))])])])

/-- `onServerMessage`: classify and dispatch; server notifications and
unknown shapes are broadcast. -/
def onServerMessage (sp : MSpec) (s : MuxState) (msg : Json) :
    MuxState × List MuxOut :=
  match jsGet msg (asciiBytes "method"), jsGet msg (asciiBytes "id") with
  | none, some id => onServerResponse sp s id msg
  | some _, none => (s, broadcast s msg)
  | some m, some id => onServerRequest s (jsToString m) id msg
  | none, none => (s, broadcast s msg)

/-- `addClient` (routing-relevant part): allocate the next id, register
the connection with pull support `false`, claim primary if unset. -/
def addClient (s : MuxState) : MuxState :=
  let c := s.nextClientId
  { s with
    nextClientId := c + 1,
    clients := s.clients ++ [c],
    clientSupportsPullDiagnostics := updA c false s.clientSupportsPullDiagnostics,
    primaryClientId := if s.primaryClientId = none then some c else s.primaryClientId }

/-- The socket `close` handler: deregister the client and hand primary to
the earliest remaining client (the pending-request tables are left
untouched). -/
def removeClient (s : MuxState) (c : Nat) : MuxState :=
  let clients' := delS c s.clients
  { s with
    clients := clients',
    clientSupportsPullDiagnostics := eraseA c s.clientSupportsPullDiagnostics,
    primaryClientId :=
      if s.primaryClientId = some c then clients'.head? else s.primaryClientId }

/-- One processed event. -/
inductive MuxEv where
  | connect : MuxEv
  | disconnect (c : Nat) : MuxEv
  | fromClient (c : Nat) (msg : Json) : MuxEv
  | fromServer (msg : Json) : MuxEv
  | bridgeFire (uri : Json) : MuxEv
deriving DecidableEq

/-- The transition function: state plus writes for one event.
`bridgeFire uri` is the debounce timer for `uri` firing (it deletes its
own debounce entry, then issues the pull request). -/
def muxStep (sp : MSpec) (s : MuxState) : MuxEv → MuxState × List MuxOut
  | MuxEv.connect => (addClient s, [])
  | MuxEv.disconnect c => (removeClient s c, [])
  | MuxEv.fromClient c msg => onClientMessage sp s c msg
  | MuxEv.fromServer msg => onServerMessage sp s msg
  | MuxEv.bridgeFire uri =>
      if uri ∈ s.bridge.debounce then
        bridgeRequest sp
          { s with bridge := { s.bridge with debounce := delS uri s.bridge.debounce } }
          uri
      else (s, [])

/-- Run a list of events from a state, collecting all writes. -/
def runFrom (sp : MSpec) (s : MuxState) : List MuxEv → MuxState × List MuxOut
  | [] => (s, [])
  | e :: es =>
    let r1 := muxStep sp s e
    let r2 := runFrom sp r1.1 es
    (r2.1, r1.2 ++ r2.2)

/-- Well-formed event lists: client-attributed events only come from
currently connected clients, and a debounce timer only fires while
armed. -/
def WFEvents (sp : MSpec) (s : MuxState) : List MuxEv → Prop
  | [] => True
  | e :: es =>
    (match e with
     | MuxEv.disconnect c => c ∈ s.clients
     | MuxEv.fromClient c _ => c ∈ s.clients
     | MuxEv.bridgeFire uri => uri ∈ s.bridge.debounce
     | _ => True) ∧ WFEvents sp (muxStep sp s e).1 es

/-- `injectPullDiagnostics` from the tsgo server spec. -/
def injectPullDiagnostics (msg : Json) : Json :=
  let params := Json.coalesce (Json.field msg (asciiBytes "params")) (Json.obj [])
  let caps := Json.coalesce (Json.field params (asciiBytes "capabilities")) (Json.obj [])
  let textDocument := Json.coalesce (Json.field caps (asciiBytes "textDocument")) (Json.obj [])
  if truthyO (Json.field textDocument (asciiBytes "diagnostic")) then msg
  else
    Json.setField msg (asciiBytes "params")
      (Json.setField params (asciiBytes "capabilities")
        (Json.setField caps (asciiBytes "textDocument")
          (Json.setField textDocument (asciiBytes "diagnostic")
            (Json.obj [(asciiBytes "dynamicRegistration", Json.bool false)]))))

/-- The tsgo spec's `diagnostics.buildRequest`. -/
def tsgoBuildRequest (uri : Json) : Json :=
  Json.obj
    [(asciiBytes "jsonrpc", Json.str (asciiBytes "2.0")),
     (asciiBytes "method", Json.str (asciiBytes "textDocument/diagnostic")),
     (asciiBytes "params", Json.obj
       [(asciiBytes "textDocument", Json.obj [(asciiBytes "uri", uri)]),
        (asciiBytes "identifier", Json.null),
        (asciiBytes "previousResultId", Json.null)])]

/-- The mux-relevant behavior of `tsgoSpec`. -/
def tsgoMSpec : MSpec where
  prepareInit := some injectPullDiagnostics
  bridgeMode := true
  buildRequest := some tsgoBuildRequest

/-- The mux-relevant behavior of `oxlintSpec` (passthrough diagnostics,
no hooks). -/
def oxlintMSpec : MSpec where
  prepareInit := none
  bridgeMode := false
  buildRequest := none

/-! ### Mux helper lemmas -/

theorem lookupA_updA {α β : Type} [DecidableEq α] (k : α) (v : β)
    (l : List (α × β)) : lookupA k (updA k v l) = some v := by
  induction l with
  | nil => simp [updA, lookupA]
  | cons p rest ih =>
    obtain ⟨a, b⟩ := p
    by_cases h : a = k
    · simp [updA, h, lookupA]
    · simp only [updA, lookupA]
      rw [if_neg h]
      simp only [lookupA]
      rw [if_neg h]
      exact ih

theorem lookupA_updA_ne {α β : Type} [DecidableEq α] {k' k : α} (v : β)
    (l : List (α × β)) (h : k' ≠ k) :
    lookupA k' (updA k v l) = lookupA k' l := by
  induction l with
  | nil =>
    simp only [updA, lookupA]
    rw [if_neg (fun e => h e.symm)]
  | cons p rest ih =>
    obtain ⟨a, b⟩ := p
    by_cases hp : a = k
    · simp only [updA]
      rw [if_pos hp]
      simp only [lookupA]
      rw [if_neg (fun e => h e.symm), if_neg (by rw [hp]; exact fun e => h e.symm)]
    · simp only [updA]
      rw [if_neg hp]
      simp only [lookupA]
      by_cases hq : a = k'
      · rw [if_pos hq, if_pos hq]
      · rw [if_neg hq, if_neg hq]
        exact ih

theorem lookupA_eraseA_ne {α β : Type} [DecidableEq α] {k' k : α}
    (l : List (α × β)) (h : k' ≠ k) :
    lookupA k' (eraseA k l) = lookupA k' l := by
  induction l with
  | nil => simp [eraseA, lookupA]
  | cons p rest ih =>
    obtain ⟨a, b⟩ := p
    by_cases hp : a = k
    · simp only [eraseA]
      rw [if_pos hp]
      simp only [lookupA]
      rw [if_neg (by rw [hp]; exact fun e => h e.symm)]
    · simp only [eraseA]
      rw [if_neg hp]
      simp only [lookupA]
      by_cases hq : a = k'
      · rw [if_pos hq, if_pos hq]
      · rw [if_neg hq, if_neg hq]
        exact ih

theorem lookup_setAssoc_ne (k' k : List Nat) (v : Json)
    (l : List (List Nat × Json)) (h : k' ≠ k) :
    (setAssoc k v l).lookup k' = l.lookup k' := by
  induction l with
  | nil =>
    simp only [setAssoc, List.lookup]
    rw [beq_eq_false_iff_ne.mpr h]
  | cons p rest ih =>
    obtain ⟨a, b⟩ := p
    by_cases hp : a = k
    · simp only [setAssoc]
      rw [if_pos hp]
      simp only [List.lookup]
      rw [beq_eq_false_iff_ne.mpr h, beq_eq_false_iff_ne.mpr (by rw [hp]; exact h)]
    · simp only [setAssoc]
      rw [if_neg hp]
      simp only [List.lookup]
      cases hq : (k' == a) with
      | true => rfl
      | false => exact ih

theorem lookup_setAssoc_eq (k : List Nat) (v : Json)
    (l : List (List Nat × Json)) : (setAssoc k v l).lookup k = some v := by
  induction l with
  | nil => simp [setAssoc, List.lookup]
  | cons p rest ih =>
    obtain ⟨a, b⟩ := p
    by_cases hp : a = k
    · simp only [setAssoc]
      rw [if_pos hp]
      simp [List.lookup]
    · simp only [setAssoc]
      rw [if_neg hp]
      simp only [List.lookup]
      rw [beq_eq_false_iff_ne.mpr (fun e => hp e.symm)]
      exact ih

/-- Overwriting one key leaves every other property unchanged. -/
theorem field_setField_ne (j : Json) (k' k : List Nat) (v : Json)
    (h : k' ≠ k) :
    Json.field (Json.setField j k v) k' = Json.field j k' := by
  cases j with
  | obj fields =>
    simp only [Json.setField, Json.field]
    exact lookup_setAssoc_ne k' k v fields h
  | null =>
    simp only [Json.setField, Json.field, List.lookup]
    rw [beq_eq_false_iff_ne.mpr h]
  | bool b =>
    simp only [Json.setField, Json.field, List.lookup]
    rw [beq_eq_false_iff_ne.mpr h]
  | num n =>
    simp only [Json.setField, Json.field, List.lookup]
    rw [beq_eq_false_iff_ne.mpr h]
  | str s =>
    simp only [Json.setField, Json.field, List.lookup]
    rw [beq_eq_false_iff_ne.mpr h]
  | arr xs =>
    simp only [Json.setField, Json.field, List.lookup]
    rw [beq_eq_false_iff_ne.mpr h]

theorem jsGet_setField_ne (j : Json) (k' k : List Nat) (v : Json)
    (h : k' ≠ k) :
    jsGet (Json.setField j k v) k' = jsGet j k' := by
  simp only [jsGet, field_setField_ne j k' k v h]

/-- The overwritten key reads back the written value. -/
theorem field_setField_eq (j : Json) (k : List Nat) (v : Json) :
    Json.field (Json.setField j k v) k = some v := by
  cases j with
  | obj fields =>
    simp only [Json.setField, Json.field]
    exact lookup_setAssoc_eq k v fields
  | null => simp [Json.setField, Json.field, List.lookup]
  | bool b => simp [Json.setField, Json.field, List.lookup]
  | num n => simp [Json.setField, Json.field, List.lookup]
  | str s => simp [Json.setField, Json.field, List.lookup]
  | arr xs => simp [Json.setField, Json.field, List.lookup]

/-- `bridgeSchedule` only touches the bridge component. -/
theorem bridgeSchedule_bridgeOnly (s : MuxState) (uri : Json) :
    ∃ b, bridgeSchedule s uri = { s with bridge := b } := by
  unfold bridgeSchedule
  split_ifs with h1 h2
  · exact ⟨s.bridge, rfl⟩
  · exact ⟨_, rfl⟩
  · exact ⟨_, rfl⟩

/-- `bridgeMarkInitDone` only touches the bridge component. -/
theorem bridgeMarkInitDone_bridgeOnly (s : MuxState) :
    ∃ b, bridgeMarkInitDone s = { s with bridge := b } := by
  unfold bridgeMarkInitDone
  generalize s.bridge.pendingAfterInit = queued
  have gen : ∀ (q : List Json) (t : MuxState) (b0 : BridgeState),
      ∃ b, q.foldl bridgeSchedule { t with bridge := b0 } = { t with bridge := b } := by
    intro q
    induction q with
    | nil => exact fun t b0 => ⟨b0, rfl⟩
    | cons u q ih =>
      intro t b0
      simp only [List.foldl]
      obtain ⟨b1, hb1⟩ := bridgeSchedule_bridgeOnly { t with bridge := b0 } u
      rw [hb1]
      exact ih t b1
  exact gen queued s _

/-- `maybeTriggerDiagnosticsBridge` only touches the bridge component. -/
theorem maybeTriggerBridge_bridgeOnly (sp : MSpec) (s : MuxState)
    (method : List Nat) (msg : Json) :
    ∃ b, maybeTriggerBridge sp s method msg = { s with bridge := b } := by
  unfold maybeTriggerBridge
  split_ifs with h1 h2
  · exact ⟨s.bridge, rfl⟩
  · split
    · split_ifs
      · exact bridgeSchedule_bridgeOnly _ _
      · exact ⟨s.bridge, rfl⟩
    · exact ⟨s.bridge, rfl⟩
  · exact ⟨s.bridge, rfl⟩

/-- The `didClose` cleanup only touches the bridge component. -/
theorem bridgeOnDidClose_bridgeOnly (s : MuxState) (uri : Json) :
    ∃ b, bridgeOnDidClose s uri = { s with bridge := b } :=
  ⟨_, rfl⟩

/-- The state part of `flushQueuedInitialize` only clears the queue. -/
theorem flushQueuedInit_state (s : MuxState) (result error : Option Json) :
    (flushQueuedInit s result error).1 = { s with queuedInit := [] } := rfl

/-- Every write of `respondWithCachedInit` goes to the addressed,
still-connected client. -/
theorem respondWithCachedInit_mem (s : MuxState) (c : Nat) (id : Json)
    (result error : Option Json) (out : MuxOut)
    (h : out ∈ respondWithCachedInit s c id result error) :
    (∃ m, out = MuxOut.toClient c m) ∧ c ∈ s.clients := by
  unfold respondWithCachedInit at h
  by_cases h1 : c ∈ s.clients
  · rw [if_neg (by simpa using h1)] at h
    split_ifs at h
    all_goals simp only [List.mem_singleton] at h
    all_goals exact ⟨⟨_, h⟩, h1⟩
  · rw [if_pos (by simpa using h1)] at h
    simp at h

/-- Every write of `flushQueuedInitialize` goes to a still-connected
client. -/
theorem flushQueuedInit_mem (s : MuxState) (result error : Option Json)
    (out : MuxOut) (h : out ∈ (flushQueuedInit s result error).2) :
    ∃ d m, out = MuxOut.toClient d m ∧ d ∈ s.clients := by
  unfold flushQueuedInit at h
  simp only at h
  have gen : ∀ (q : List (Nat × Json)) (acc : List MuxOut),
      (∀ o ∈ acc, ∃ d m, o = MuxOut.toClient d m ∧ d ∈ s.clients) →
      out ∈ q.foldl (fun acc e =>
        acc ++ respondWithCachedInit { s with queuedInit := [] } e.1 e.2 result error) acc →
      ∃ d m, out = MuxOut.toClient d m ∧ d ∈ s.clients := by
    intro q
    induction q with
    | nil => intro acc hacc hmem; exact hacc out hmem
    | cons e q ih =>
      intro acc hacc hmem
      simp only [List.foldl] at hmem
      refine ih _ ?_ hmem
      intro o ho
      rcases List.mem_append.mp ho with ho | ho
      · exact hacc o ho
      · obtain ⟨⟨m, hm⟩, hc⟩ :=
          respondWithCachedInit_mem { s with queuedInit := [] } e.1 e.2 result error o ho
        exact ⟨e.1, m, hm, hc⟩
  exact gen s.queuedInit [] (by intro o ho; simp at ho) h

theorem deliverToClient_fst (s : MuxState) (c : Nat) (outs : List MuxOut)
    (m : Json) : (deliverToClient s c outs m).1 = s := by
  unfold deliverToClient
  split <;> rfl

theorem deliverToClient_mem_out (s : MuxState) (c : Nat) (outs : List MuxOut)
    (m : Json) (out : MuxOut) (h : out ∈ (deliverToClient s c outs m).2) :
    out ∈ outs ∨ (out = MuxOut.toClient c m ∧ c ∈ s.clients) := by
  unfold deliverToClient at h
  split_ifs at h with hm
  · rcases List.mem_append.mp h with h1 | h1
    · exact Or.inl h1
    · exact Or.inr ⟨List.mem_singleton.mp h1, hm⟩
  · exact Or.inl h

/-- A routed server response outside the init handshake: consume the
table entry and deliver with the original id restored. -/
theorem onServerResponse_route (sp : MSpec) (s : MuxState) (n : Int)
    (c : Nat) (origId msg : Json)
    (hint : lookupA n s.pendingInternalRequests = none)
    (hcl : lookupA n s.pendingClientRequests = some (c, origId))
    (hni : ∀ q, s.init ≠ InitState.inProgress q) :
    onServerResponse sp s (Json.num n) msg
      = deliverToClient
          { s with pendingClientRequests := eraseA n s.pendingClientRequests }
          c [] (Json.setField msg (asciiBytes "id") origId) := by
  simp only [onServerResponse, hint, hcl]

/-- A routed server response during another client's init handshake:
no caching, consume the entry and deliver. -/
theorem onServerResponse_route2 (sp : MSpec) (s : MuxState) (n : Int)
    (c q : Nat) (origId msg : Json)
    (hint : lookupA n s.pendingInternalRequests = none)
    (hcl : lookupA n s.pendingClientRequests = some (c, origId))
    (hip : s.init = InitState.inProgress q) (hne : c ≠ q) :
    onServerResponse sp s (Json.num n) msg
      = deliverToClient
          { s with pendingClientRequests := eraseA n s.pendingClientRequests }
          c [] (Json.setField msg (asciiBytes "id") origId) := by
  simp only [onServerResponse, hint, hcl, hip, if_neg hne]

/-- A routed server response that completes the init handshake: cache the
reply, flush the queue, mark the bridge, deliver to the primary. -/
theorem onServerResponse_initDone (sp : MSpec) (s : MuxState) (n : Int)
    (p : Nat) (origId msg : Json)
    (hint : lookupA n s.pendingInternalRequests = none)
    (hcl : lookupA n s.pendingClientRequests = some (p, origId))
    (hip : s.init = InitState.inProgress p) :
    onServerResponse sp s (Json.num n) msg
      = deliverToClient
          (if sp.bridgeMode then
            bridgeMarkInitDone
              { s with
                  pendingClientRequests := eraseA n s.pendingClientRequests,
                  init := InitState.done (Json.field msg (asciiBytes "result"))
                    (Json.field msg (asciiBytes "error")),
                  queuedInit := [] }
           else
            { s with
                pendingClientRequests := eraseA n s.pendingClientRequests,
                init := InitState.done (Json.field msg (asciiBytes "result"))
                  (Json.field msg (asciiBytes "error")),
                queuedInit := [] })
          p
          (flushQueuedInit
            { s with
                pendingClientRequests := eraseA n s.pendingClientRequests,
                init := InitState.done (Json.field msg (asciiBytes "result"))
                  (Json.field msg (asciiBytes "error")) }
            (Json.field msg (asciiBytes "result"))
            (Json.field msg (asciiBytes "error"))).2
          (Json.setField msg (asciiBytes "id") origId) := by
  simp only [onServerResponse, hint, hcl]
  rcases hinit : s.init with _ | q | ⟨r, e⟩
  · exact absurd (hinit.symm.trans hip) (fun h => InitState.noConfusion h)
  · have hq := hinit.symm.trans hip
    injection hq with h
    subst h
    simp only [if_pos rfl]
    rfl
  · exact absurd (hinit.symm.trans hip) (fun h => InitState.noConfusion h)

/-- C7: Every server-initiated `client/registerCapability` or
`client/unregisterCapability` request is answered back to the server
with `result: null` under the server's identifier; every
`workspace/configuration` request is answered with an array of `null`
of the same length as `params.items` (empty when `items` is missing or
not an array); none of the three produces a write to any client. -/
theorem C7_server_special_requests (s : MuxState) (id msg : Json) :
    onServerRequest s (asciiBytes "client/registerCapability") id msg
      = (s, [MuxOut.toServer (Json.obj
          [(asciiBytes "jsonrpc", Json.str (asciiBytes "2.0")),
           (asciiBytes "id", id), (asciiBytes "result", Json.null)])]) ∧
    onServerRequest s (asciiBytes "client/unregisterCapability") id msg
      = (s, [MuxOut.toServer (Json.obj
          [(asciiBytes "jsonrpc", Json.str (asciiBytes "2.0")),
           (asciiBytes "id", id), (asciiBytes "result", Json.null)])]) ∧
    onServerRequest s (asciiBytes "workspace/configuration") id msg
      = (s, [MuxOut.toServer (Json.obj
          [(asciiBytes "jsonrpc", Json.str (asciiBytes "2.0")),
           (asciiBytes "id", id),
           (asciiBytes "result",
             if isArrO (jsGetO (jsGet msg (asciiBytes "params")) (asciiBytes "items"))
             then Json.arr ((itemsOf (jsGetO (jsGet msg (asciiBytes "params"))
                 (asciiBytes "items"))).map (fun _ => Json.null))
             else Json.arr [])])]) ∧
    ((itemsOf (jsGetO (jsGet msg (asciiBytes "params")) (asciiBytes "items"))).map
        (fun _ => Json.null)).length
      = (itemsOf (jsGetO (jsGet msg (asciiBytes "params")) (asciiBytes "items"))).length := by
  refine ⟨?_, ?_, ?_, List.length_map _ _⟩
  · unfold onServerRequest
    rw [if_pos (Or.inl rfl)]
  · unfold onServerRequest
    rw [if_pos (Or.inr rfl)]
  · unfold onServerRequest
    rw [if_neg (by decide), if_pos rfl]

/-- C4 counterexample: a connected client sends a response whose
identifier (5) is in no pending table; the claim says it is dropped, but
the mux forwards it to the server unchanged. -/
theorem C4_stray_forwarded_counterexample :
    muxStep oxlintMSpec (addClient initMux)
        (MuxEv.fromClient 1 (Json.obj
          [(asciiBytes "jsonrpc", Json.str (asciiBytes "2.0")),
           (asciiBytes "id", Json.num 5),
           (asciiBytes "result", Json.null)]))
      = (addClient initMux,
         [MuxOut.toServer (Json.obj
           [(asciiBytes "jsonrpc", Json.str (asciiBytes "2.0")),
            (asciiBytes "id", Json.num 5),
            (asciiBytes "result", Json.null)])]) := by decide

/-- C4 (amended): a client response whose numeric identifier is in the
forwarded-server-origin table is rewritten back to the server's original
identifier and forwarded to the server; any other client response
(non-numeric identifier, or a numeric one not in the table) is forwarded
to the server unchanged rather than dropped. -/
theorem C4_client_response_routing (sp : MSpec) (s : MuxState) (c : Nat)
    (msg id : Json)
    (hm : jsGet msg (asciiBytes "method") = none)
    (hid : jsGet msg (asciiBytes "id") = some id) :
    (∀ n origId, id = Json.num n →
      lookupA n s.pendingServerRequests = some origId →
      muxStep sp s (MuxEv.fromClient c msg)
        = ({ s with pendingServerRequests := eraseA n s.pendingServerRequests },
           [MuxOut.toServer (Json.setField msg (asciiBytes "id") origId)])) ∧
    (∀ n, id = Json.num n → lookupA n s.pendingServerRequests = none →
      muxStep sp s (MuxEv.fromClient c msg) = (s, [MuxOut.toServer msg])) ∧
    ((∀ n, id ≠ Json.num n) →
      muxStep sp s (MuxEv.fromClient c msg) = (s, [MuxOut.toServer msg])) := by
  refine ⟨?_, ?_, ?_⟩
  · intro n origId hn hl
    subst hn
    simp only [muxStep, onClientMessage, hm, hid, onClientResponse, hl]
  · intro n hn hl
    subst hn
    simp only [muxStep, onClientMessage, hm, hid, onClientResponse, hl]
  · intro hnn
    simp only [muxStep, onClientMessage, hm, hid]
    cases id with
    | num n => exact absurd rfl (hnn n)
    | null => simp [onClientResponse]
    | bool b => simp [onClientResponse]
    | str t => simp [onClientResponse]
    | arr xs => simp [onClientResponse]
    | obj fs => simp [onClientResponse]

/-- C4 witness: the three routing cases at concrete inputs. -/
theorem C4_client_response_routing_witness :
    (muxStep oxlintMSpec
        { initMux with pendingServerRequests := [(-1, Json.str (asciiBytes "srv"))] }
        (MuxEv.fromClient 1 (Json.obj [(asciiBytes "id", Json.num (-1))]))
      = ({ { initMux with pendingServerRequests := [(-1, Json.str (asciiBytes "srv"))] } with
            pendingServerRequests :=
              eraseA (-1) [(-1, Json.str (asciiBytes "srv"))] },
         [MuxOut.toServer (Json.setField (Json.obj [(asciiBytes "id", Json.num (-1))])
            (asciiBytes "id") (Json.str (asciiBytes "srv")))])) ∧
    (muxStep oxlintMSpec initMux
        (MuxEv.fromClient 1 (Json.obj [(asciiBytes "id", Json.num 7)]))
      = (initMux, [MuxOut.toServer (Json.obj [(asciiBytes "id", Json.num 7)])])) ∧
    (muxStep oxlintMSpec initMux
        (MuxEv.fromClient 1 (Json.obj [(asciiBytes "id", Json.str (asciiBytes "k"))]))
      = (initMux,
         [MuxOut.toServer (Json.obj [(asciiBytes "id", Json.str (asciiBytes "k"))])])) :=
  ⟨(C4_client_response_routing oxlintMSpec
      { initMux with pendingServerRequests := [(-1, Json.str (asciiBytes "srv"))] }
      1 (Json.obj [(asciiBytes "id", Json.num (-1))]) (Json.num (-1))
      (by decide) (by decide)).1 (-1) (Json.str (asciiBytes "srv")) rfl (by decide),
   (C4_client_response_routing oxlintMSpec initMux 1
      (Json.obj [(asciiBytes "id", Json.num 7)]) (Json.num 7)
      (by decide) (by decide)).2.1 7 rfl (by decide),
   (C4_client_response_routing oxlintMSpec initMux 1
      (Json.obj [(asciiBytes "id", Json.str (asciiBytes "k"))])
      (Json.str (asciiBytes "k"))
      (by decide) (by decide)).2.2 (by intro n h; exact Json.noConfusion h)⟩

theorem hasNonPull_bridge (s : MuxState) (b : BridgeState) :
    hasNonPullClients { s with bridge := b } = hasNonPullClients s := rfl

theorem publish_bridge (s : MuxState) (b : BridgeState) (uri : Json)
    (d : List Json) :
    publishDiagnosticsToNonPullClients { s with bridge := b } uri d
      = publishDiagnosticsToNonPullClients s uri d := rfl

theorem bridgeDiags_unchanged (result : Option Json)
    (cached : Option (List Json))
    (h : jsGetO result (asciiBytes "kind")
        = some (Json.str (asciiBytes "unchanged"))) :
    bridgeDiags result cached = cached.getD [] := by
  simp only [bridgeDiags, h]
  rw [if_neg (by rintro ⟨h1, -⟩; exact absurd h1 (by decide)), if_pos trivial]

/-- C9: when a bridge pull response reports `kind = "unchanged"`, the
bridge publishes (to the non-pull clients, when any exist) exactly the
items it last published for that URI — the empty array when nothing is
cached — and re-caches that same array. -/
theorem C9_unchanged_replay (s : MuxState) (uri msg : Json)
    (hkind : jsGetO (Json.field msg (asciiBytes "result")) (asciiBytes "kind")
        = some (Json.str (asciiBytes "unchanged")))
    (hsub : hasNonPullClients s = true) :
    (bridgeOnServerResponse s uri msg).2
      = publishDiagnosticsToNonPullClients s uri
          ((lookupA uri s.bridge.lastPublished).getD []) ∧
    lookupA uri (bridgeOnServerResponse s uri msg).1.bridge.lastPublished
      = some ((lookupA uri s.bridge.lastPublished).getD []) := by
  simp only [bridgeOnServerResponse]
  rw [bridgeDiags_unchanged _ _ hkind]
  rw [hasNonPull_bridge, hsub]
  simp only [Bool.not_true, Bool.false_eq_true, if_false]
  constructor
  · rw [publish_bridge]
  · exact lookupA_updA _ _ _

/-- C9 witness: one connected non-pull client, empty cache. -/
theorem C9_unchanged_replay_witness :
    (bridgeOnServerResponse (addClient initMux)
        (Json.str (asciiBytes "file:///a.ts"))
        (Json.obj [(asciiBytes "result",
          Json.obj [(asciiBytes "kind", Json.str (asciiBytes "unchanged"))])])).2
      = publishDiagnosticsToNonPullClients (addClient initMux)
          (Json.str (asciiBytes "file:///a.ts"))
          ((lookupA (Json.str (asciiBytes "file:///a.ts"))
              (addClient initMux).bridge.lastPublished).getD []) ∧
    lookupA (Json.str (asciiBytes "file:///a.ts"))
        (bridgeOnServerResponse (addClient initMux)
          (Json.str (asciiBytes "file:///a.ts"))
          (Json.obj [(asciiBytes "result",
            Json.obj [(asciiBytes "kind", Json.str (asciiBytes "unchanged"))])])).1.bridge.lastPublished
      = some ((lookupA (Json.str (asciiBytes "file:///a.ts"))
          (addClient initMux).bridge.lastPublished).getD []) :=
  C9_unchanged_replay (addClient initMux) (Json.str (asciiBytes "file:///a.ts"))
    (Json.obj [(asciiBytes "result",
      Json.obj [(asciiBytes "kind", Json.str (asciiBytes "unchanged"))])])
    (by decide) (by decide)

/-- C2: once the init state is `done`, a further `initialize` request
from a connected client is answered immediately from the cache — the
cached `error` when non-nullish, else the cached `result` — under the
client's own identifier, with no write to the server; the cache holds
exactly the `result`/`error` fields of the server's reply to the
primary, and the primary's own delivered copy carries those same field
values, so the replayed payload is byte-equivalent to the primary's. -/
theorem C2_cached_init_replay (sp : MSpec) (s : MuxState) (c p : Nat)
    (n : Int) (id origId msg : Json) (result error : Option Json) :
    (s.init = InitState.done result error → c ∈ s.clients →
      handleInitReq sp s c id msg
        = (recordClientCapabilities s c msg,
           if !(Json.isNullish error) then
             [MuxOut.toClient c (Json.obj
               [(asciiBytes "jsonrpc", Json.str (asciiBytes "2.0")),
                (asciiBytes "id", id),
                (asciiBytes "error", error.getD Json.null)])]
           else
             [MuxOut.toClient c (Json.obj
               ([(asciiBytes "jsonrpc", Json.str (asciiBytes "2.0")),
                 (asciiBytes "id", id)] ++
                (match result with
                 | some r => [(asciiBytes "result", r)]
                 | none => [])))])) ∧
    (s.init = InitState.inProgress p →
      lookupA n s.pendingInternalRequests = none →
      lookupA n s.pendingClientRequests = some (p, origId) →
      (onServerResponse sp s (Json.num n) msg).1.init
        = InitState.done (Json.field msg (asciiBytes "result"))
            (Json.field msg (asciiBytes "error"))) ∧
    (Json.field (Json.setField msg (asciiBytes "id") origId) (asciiBytes "result")
        = Json.field msg (asciiBytes "result") ∧
     Json.field (Json.setField msg (asciiBytes "id") origId) (asciiBytes "error")
        = Json.field msg (asciiBytes "error")) := by
  refine ⟨?_, ?_, field_setField_ne msg _ _ origId (by decide),
    field_setField_ne msg _ _ origId (by decide)⟩
  · intro hdone hc
    simp only [handleInitReq]
    rw [show (recordClientCapabilities s c msg).init = InitState.done result error
      from hdone]
    simp only [respondWithCachedInit]
    rw [if_neg (show ¬(c ∉ (recordClientCapabilities s c msg).clients)
      from not_not_intro hc)]
  · intro hip hint hcl
    rw [onServerResponse_initDone sp s n p origId msg hint hcl hip]
    rw [deliverToClient_fst]
    by_cases hb : sp.bridgeMode
    · rw [if_pos hb]
      obtain ⟨b, hmb⟩ := bridgeMarkInitDone_bridgeOnly
        { s with
            pendingClientRequests := eraseA n s.pendingClientRequests,
            init := InitState.done (Json.field msg (asciiBytes "result"))
              (Json.field msg (asciiBytes "error")),
            queuedInit := [] }
      rw [hmb]
    · rw [if_neg hb]

/-- C2 witness: a cached-done state replays the cached result under the
new client's id, and the primary's response fields are what get
cached. -/
theorem C2_cached_init_replay_witness :
    (handleInitReq oxlintMSpec
        { addClient initMux with
            init := InitState.done (some (Json.obj [])) none }
        1 (Json.num 42) (Json.obj [])
      = (recordClientCapabilities
          { addClient initMux with
              init := InitState.done (some (Json.obj [])) none }
          1 (Json.obj []),
         [MuxOut.toClient 1 (Json.obj
           [(asciiBytes "jsonrpc", Json.str (asciiBytes "2.0")),
            (asciiBytes "id", Json.num 42),
            (asciiBytes "result", Json.obj [])])])) ∧
    (onServerResponse oxlintMSpec
        { addClient initMux with
            init := InitState.inProgress 1,
            pendingClientRequests := [(1, (1, Json.num 7))] }
        (Json.num 1)
        (Json.obj [(asciiBytes "result", Json.bool true)])).1.init
      = InitState.done (some (Json.bool true)) none := by
  constructor
  · exact ((C2_cached_init_replay oxlintMSpec
      { addClient initMux with init := InitState.done (some (Json.obj [])) none }
      1 0 0 (Json.num 42) Json.null (Json.obj []) (some (Json.obj [])) none).1
      rfl (by decide)).trans (by decide)
  · exact ((C2_cached_init_replay oxlintMSpec
      { addClient initMux with
          init := InitState.inProgress 1,
          pendingClientRequests := [(1, (1, Json.num 7))] }
      0 1 1 Json.null (Json.num 7)
      (Json.obj [(asciiBytes "result", Json.bool true)])
      none none).2.1 rfl (by decide) (by decide)).trans (by decide)

/-- C8 counterexample: client 1 connects, sends one request (which is
recorded in the client-origin pending table), and disconnects; the entry
for the torn-down client is still in the table. -/
theorem C8_stale_entry_counterexample :
    (runFrom oxlintMSpec initMux
        [MuxEv.connect,
         MuxEv.fromClient 1 (Json.obj
           [(asciiBytes "jsonrpc", Json.str (asciiBytes "2.0")),
            (asciiBytes "id", Json.num 1),
            (asciiBytes "method", Json.str (asciiBytes "textDocument/hover"))]),
         MuxEv.disconnect 1]).1.pendingClientRequests
      = [(1, (1, Json.num 1))] ∧
    (runFrom oxlintMSpec initMux
        [MuxEv.connect,
         MuxEv.fromClient 1 (Json.obj
           [(asciiBytes "jsonrpc", Json.str (asciiBytes "2.0")),
            (asciiBytes "id", Json.num 1),
            (asciiBytes "method", Json.str (asciiBytes "textDocument/hover"))]),
         MuxEv.disconnect 1]).1.clients = [] := by decide

/-- C8 (amended): a disconnect leaves all three pending-request tables
untouched, so entries for a torn-down client persist; such a stale entry
is consumed when the matching server response arrives, and that response
is dropped — no write goes to the disconnected client. -/
theorem C8_stale_entries (sp : MSpec) (s : MuxState) (c : Nat) (n : Int)
    (origId msg : Json) :
    (removeClient s c).pendingClientRequests = s.pendingClientRequests ∧
    (removeClient s c).pendingServerRequests = s.pendingServerRequests ∧
    (removeClient s c).pendingInternalRequests = s.pendingInternalRequests ∧
    (c ∉ s.clients →
      lookupA n s.pendingInternalRequests = none →
      lookupA n s.pendingClientRequests = some (c, origId) →
      (onServerResponse sp s (Json.num n) msg).1.pendingClientRequests
        = eraseA n s.pendingClientRequests ∧
      ∀ out ∈ (onServerResponse sp s (Json.num n) msg).2,
        ∀ m, out ≠ MuxOut.toClient c m) := by
  refine ⟨rfl, rfl, rfl, ?_⟩
  intro hgone hint hcl
  rcases hinit : s.init with _ | p | ⟨r, e⟩
  · have hni : ∀ q, s.init ≠ InitState.inProgress q := fun q h => by
      rw [hinit] at h; exact InitState.noConfusion h
    rw [onServerResponse_route sp s n c origId msg hint hcl hni]
    refine ⟨by rw [deliverToClient_fst], ?_⟩
    intro out hout m hm
    rcases deliverToClient_mem_out _ _ _ _ _ hout with h1 | ⟨-, hmem⟩
    · simp at h1
    · exact hgone (show c ∈ s.clients from hmem)
  · by_cases hcp : c = p
    · subst hcp
      rw [onServerResponse_initDone sp s n c origId msg hint hcl hinit]
      constructor
      · rw [deliverToClient_fst]
        by_cases hb : sp.bridgeMode
        · rw [if_pos hb]
          obtain ⟨b, hmb⟩ := bridgeMarkInitDone_bridgeOnly
            { s with
                pendingClientRequests := eraseA n s.pendingClientRequests,
                init := InitState.done (Json.field msg (asciiBytes "result"))
                  (Json.field msg (asciiBytes "error")),
                queuedInit := [] }
          rw [hmb]
        · rw [if_neg hb]
      · intro out hout m hm
        rcases deliverToClient_mem_out _ _ _ _ _ hout with h1 | ⟨-, hmem⟩
        · obtain ⟨d, m2, hdm, hd⟩ := flushQueuedInit_mem _ _ _ out h1
          rw [hdm] at hm
          cases hm
          exact hgone (show c ∈ s.clients from hd)
        · have hce : (if sp.bridgeMode = true then
              bridgeMarkInitDone
                { s with
                    pendingClientRequests := eraseA n s.pendingClientRequests,
                    init := InitState.done (Json.field msg (asciiBytes "result"))
                      (Json.field msg (asciiBytes "error")),
                    queuedInit := [] }
             else
              { s with
                  pendingClientRequests := eraseA n s.pendingClientRequests,
                  init := InitState.done (Json.field msg (asciiBytes "result"))
                    (Json.field msg (asciiBytes "error")),
                  queuedInit := [] }).clients = s.clients := by
            by_cases hb : sp.bridgeMode
            · rw [if_pos hb]
              obtain ⟨b, hmb⟩ := bridgeMarkInitDone_bridgeOnly
                { s with
                    pendingClientRequests := eraseA n s.pendingClientRequests,
                    init := InitState.done (Json.field msg (asciiBytes "result"))
                      (Json.field msg (asciiBytes "error")),
                    queuedInit := [] }
              rw [hmb]
            · rw [if_neg hb]
          exact hgone (hce ▸ hmem)
    · rw [onServerResponse_route2 sp s n c p origId msg hint hcl hinit hcp]
      refine ⟨by rw [deliverToClient_fst], ?_⟩
      intro out hout m hm
      rcases deliverToClient_mem_out _ _ _ _ _ hout with h1 | ⟨-, hmem⟩
      · simp at h1
      · exact hgone (show c ∈ s.clients from hmem)
  · have hni : ∀ q, s.init ≠ InitState.inProgress q := fun q h => by
      rw [hinit] at h; exact InitState.noConfusion h
    rw [onServerResponse_route sp s n c origId msg hint hcl hni]
    refine ⟨by rw [deliverToClient_fst], ?_⟩
    intro out hout m hm
    rcases deliverToClient_mem_out _ _ _ _ _ hout with h1 | ⟨-, hmem⟩
    · simp at h1
    · exact hgone (show c ∈ s.clients from hmem)

/-- C8 witness: a stale entry for disconnected client 1 survives
`removeClient` and is consumed silently by the matching response. -/
theorem C8_stale_entries_witness :
    (removeClient { initMux with pendingClientRequests := [(1, (1, Json.num 1))] } 1).pendingClientRequests
      = ({ initMux with pendingClientRequests := [(1, (1, Json.num 1))] } : MuxState).pendingClientRequests ∧
    ((onServerResponse oxlintMSpec
        { initMux with pendingClientRequests := [(1, (1, Json.num 1))] }
        (Json.num 1) (Json.obj [(asciiBytes "result", Json.null)])).1.pendingClientRequests
      = eraseA 1 ({ initMux with pendingClientRequests := [(1, (1, Json.num 1))] } : MuxState).pendingClientRequests ∧
    ∀ out ∈ (onServerResponse oxlintMSpec
        { initMux with pendingClientRequests := [(1, (1, Json.num 1))] }
        (Json.num 1) (Json.obj [(asciiBytes "result", Json.null)])).2,
      ∀ m, out ≠ MuxOut.toClient 1 m) :=
  ⟨(C8_stale_entries oxlintMSpec
      { initMux with pendingClientRequests := [(1, (1, Json.num 1))] }
      1 1 (Json.num 1) (Json.obj [(asciiBytes "result", Json.null)])).1,
   (C8_stale_entries oxlintMSpec
      { initMux with pendingClientRequests := [(1, (1, Json.num 1))] }
      1 1 (Json.num 1) (Json.obj [(asciiBytes "result", Json.null)])).2.2.2
      (by decide) (by decide) (by decide)⟩

/-- Is a write a server-bound message whose `method` stringifies to
`initialize`?  Counts the `initialize` messages the server receives. -/
def sentInit (o : MuxOut) : Bool :=
  match o with
  | MuxOut.toServer m =>
    (match jsGet m (asciiBytes "method") with
     | some v => decide (jsToString v = asciiBytes "initialize")
     | none => false)
  | MuxOut.toClient _ _ => false

/-- 0 before the handshake starts, 1 afterwards. -/
def initRank : InitState → Nat
  | InitState.notStarted => 0
  | InitState.inProgress _ => 1
  | InitState.done _ _ => 1

theorem broadcast_toClient (s : MuxState) (m : Json) (out : MuxOut)
    (h : out ∈ broadcast s m) : ∃ d m', out = MuxOut.toClient d m' := by
  unfold broadcast at h
  obtain ⟨d, hd, hout⟩ := List.mem_map.mp h
  exact ⟨d, m, hout.symm⟩

theorem publish_toClient (s : MuxState) (uri : Json) (diags : List Json)
    (out : MuxOut) (h : out ∈ publishDiagnosticsToNonPullClients s uri diags) :
    ∃ d m', out = MuxOut.toClient d m' := by
  unfold publishDiagnosticsToNonPullClients at h
  obtain ⟨d, hd, hout⟩ := List.mem_map.mp h
  exact ⟨d, _, hout.symm⟩

theorem bridgeOnServerResponse_toClient (s : MuxState) (uri msg : Json)
    (out : MuxOut) (h : out ∈ (bridgeOnServerResponse s uri msg).2) :
    ∃ d m', out = MuxOut.toClient d m' := by
  simp only [bridgeOnServerResponse] at h
  split_ifs at h with h1
  · simp at h
  · exact publish_toClient _ _ _ out h

/-- Every write `onServerResponse` performs goes to a client, never back
to the server. -/
theorem onServerResponse_toClient (sp : MSpec) (s : MuxState) (id msg : Json)
    (out : MuxOut) (h : out ∈ (onServerResponse sp s id msg).2) :
    ∃ d m', out = MuxOut.toClient d m' := by
  simp only [onServerResponse] at h
  cases id with
  | num n =>
    cases hint : lookupA n s.pendingInternalRequests with
    | some uri =>
      simp only [hint] at h
      split_ifs at h with hb
      · exact bridgeOnServerResponse_toClient _ _ _ out h
      · simp at h
    | none =>
      simp only [hint] at h
      cases hcl : lookupA n s.pendingClientRequests with
      | none =>
        simp only [hcl] at h
        exact broadcast_toClient _ _ out h
      | some pr =>
        obtain ⟨prc, pro⟩ := pr
        simp only [hcl] at h
        rcases deliverToClient_mem_out _ _ _ _ _ h with h1 | ⟨heq, -⟩
        · rcases hps : s.init with _ | p | ⟨r, e⟩
          all_goals simp only [hps] at h1
          · simp at h1
          · by_cases hpp : prc = p
            · simp only [if_pos hpp] at h1
              obtain ⟨d, m2, hdm, -⟩ := flushQueuedInit_mem _ _ _ out h1
              exact ⟨d, m2, hdm⟩
            · simp only [if_neg hpp] at h1
              simp at h1
          · simp at h1
        · exact ⟨prc, _, heq⟩
  | null => exact broadcast_toClient _ _ out h
  | bool b => exact broadcast_toClient _ _ out h
  | str t => exact broadcast_toClient _ _ out h
  | arr xs => exact broadcast_toClient _ _ out h
  | obj fs => exact broadcast_toClient _ _ out h

theorem bridgeOnServerResponse_init (s : MuxState) (uri msg : Json) :
    (bridgeOnServerResponse s uri msg).1.init = s.init := by
  simp only [bridgeOnServerResponse]
  split_ifs <;> rfl

theorem bridgeOnServerResponse_caps (s : MuxState) (uri msg : Json) :
    (bridgeOnServerResponse s uri msg).1.clientSupportsPullDiagnostics
      = s.clientSupportsPullDiagnostics := by
  simp only [bridgeOnServerResponse]
  split_ifs <;> rfl

theorem bridgeRequest_caps (sp : MSpec) (s : MuxState) (uri : Json) :
    (bridgeRequest sp s uri).1.clientSupportsPullDiagnostics
      = s.clientSupportsPullDiagnostics := by
  simp only [bridgeRequest]
  split_ifs <;> rfl

theorem bridgeRequest_init (sp : MSpec) (s : MuxState) (uri : Json) :
    (bridgeRequest sp s uri).1.init = s.init := by
  simp only [bridgeRequest]
  split_ifs <;> rfl

theorem onClientResponse_state (s : MuxState) (id msg : Json) :
    ∃ l, (onClientResponse s id msg).1 = { s with pendingServerRequests := l } := by
  unfold onClientResponse
  cases id with
  | num n =>
    cases hl : lookupA n s.pendingServerRequests with
    | some v =>
      simp only [hl]
      exact ⟨_, rfl⟩
    | none =>
      simp only [hl]
      exact ⟨s.pendingServerRequests, rfl⟩
  | null => exact ⟨s.pendingServerRequests, rfl⟩
  | bool b => exact ⟨s.pendingServerRequests, rfl⟩
  | str t => exact ⟨s.pendingServerRequests, rfl⟩
  | arr xs => exact ⟨s.pendingServerRequests, rfl⟩
  | obj fs => exact ⟨s.pendingServerRequests, rfl⟩

theorem onClientResponse_outs (s : MuxState) (id msg : Json) (out : MuxOut)
    (h : out ∈ (onClientResponse s id msg).2) :
    (∃ v, out = MuxOut.toServer (Json.setField msg (asciiBytes "id") v)) ∨
      out = MuxOut.toServer msg := by
  unfold onClientResponse at h
  cases id with
  | num n =>
    cases hl : lookupA n s.pendingServerRequests with
    | some v =>
      simp only [hl, List.mem_singleton] at h
      exact Or.inl ⟨v, h⟩
    | none =>
      simp only [hl, List.mem_singleton] at h
      exact Or.inr h
  | null => exact Or.inr (List.mem_singleton.mp h)
  | bool b => exact Or.inr (List.mem_singleton.mp h)
  | str t => exact Or.inr (List.mem_singleton.mp h)
  | arr xs => exact Or.inr (List.mem_singleton.mp h)
  | obj fs => exact Or.inr (List.mem_singleton.mp h)

theorem onClientNotification_state (sp : MSpec) (s : MuxState) (c : Nat)
    (m : List Nat) (msg : Json) :
    ∃ b, (onClientNotification sp s c m msg).1 = { s with bridge := b } := by
  simp only [onClientNotification]
  obtain ⟨b1, h1⟩ := maybeTriggerBridge_bridgeOnly sp s m msg
  rw [h1]
  by_cases hdc : m = asciiBytes "textDocument/didClose"
  · rw [if_pos hdc]
    cases hj : jsGetO (jsGetO (jsGet msg (asciiBytes "params"))
        (asciiBytes "textDocument")) (asciiBytes "uri") with
    | none =>
      simp only [hj]
      split_ifs <;> exact ⟨b1, rfl⟩
    | some uri =>
      simp only [hj]
      split_ifs <;> exact ⟨_, rfl⟩
  · rw [if_neg hdc]
    split_ifs <;> exact ⟨b1, rfl⟩

theorem onClientNotification_outs (sp : MSpec) (s : MuxState) (c : Nat)
    (m : List Nat) (msg : Json) :
    (onClientNotification sp s c m msg).2 = [MuxOut.toServer msg] ∨
      (onClientNotification sp s c m msg).2 = [] := by
  simp only [onClientNotification]
  split_ifs <;> first | exact Or.inl rfl | exact Or.inr rfl

theorem bridgeMarkInitDone_init (s : MuxState) :
    (bridgeMarkInitDone s).init = s.init := by
  obtain ⟨b, hb⟩ := bridgeMarkInitDone_bridgeOnly s
  rw [hb]

theorem bridgeMarkInitDone_caps (s : MuxState) :
    (bridgeMarkInitDone s).clientSupportsPullDiagnostics
      = s.clientSupportsPullDiagnostics := by
  obtain ⟨b, hb⟩ := bridgeMarkInitDone_bridgeOnly s
  rw [hb]

theorem onServerResponse_initRank (sp : MSpec) (s : MuxState) (id msg : Json) :
    initRank (onServerResponse sp s id msg).1.init = initRank s.init := by
  simp only [onServerResponse]
  cases id with
  | num n =>
    cases hint : lookupA n s.pendingInternalRequests with
    | some uri =>
      simp only [hint]
      split_ifs with hb
      · rw [bridgeOnServerResponse_init]
      · rfl
    | none =>
      simp only [hint]
      cases hcl : lookupA n s.pendingClientRequests with
      | none => simp only [hcl]
      | some pr =>
        obtain ⟨prc, pro⟩ := pr
        simp only [hcl]
        rw [deliverToClient_fst]
        rcases hps : s.init with _ | p | ⟨r, e⟩
        · rfl
        · by_cases hpp : prc = p
          · simp only [if_pos hpp]
            rw [flushQueuedInit_state]
            by_cases hb : sp.bridgeMode
            · rw [if_pos hb, bridgeMarkInitDone_init]
              rfl
            · rw [if_neg hb]
              rfl
          · simp only [if_neg hpp]
        · rfl
  | null => rfl
  | bool b => rfl
  | str t => rfl
  | arr xs => rfl
  | obj fs => rfl

theorem onServerResponse_caps (sp : MSpec) (s : MuxState) (id msg : Json) :
    (onServerResponse sp s id msg).1.clientSupportsPullDiagnostics
      = s.clientSupportsPullDiagnostics := by
  simp only [onServerResponse]
  cases id with
  | num n =>
    cases hint : lookupA n s.pendingInternalRequests with
    | some uri =>
      simp only [hint]
      split_ifs with hb
      · rw [bridgeOnServerResponse_caps]
      · rfl
    | none =>
      simp only [hint]
      cases hcl : lookupA n s.pendingClientRequests with
      | none => simp only [hcl]
      | some pr =>
        obtain ⟨prc, pro⟩ := pr
        simp only [hcl]
        rw [deliverToClient_fst]
        rcases hps : s.init with _ | p | ⟨r, e⟩
        · rfl
        · by_cases hpp : prc = p
          · simp only [if_pos hpp]
            rw [flushQueuedInit_state]
            by_cases hb : sp.bridgeMode
            · rw [if_pos hb, bridgeMarkInitDone_caps]
            · rw [if_neg hb]
          · simp only [if_neg hpp]
        · rfl
  | null => rfl
  | bool b => rfl
  | str t => rfl
  | arr xs => rfl
  | obj fs => rfl

theorem onServerRequest_init (s : MuxState) (m : List Nat) (id msg : Json) :
    (onServerRequest s m id msg).1.init = s.init := by
  unfold onServerRequest
  split_ifs with h1 h2
  · rfl
  · rfl
  · cases hp : s.primaryClientId with
    | some p =>
      simp only [hp]
      all_goals split_ifs <;> rfl
    | none =>
      simp only [hp]
      all_goals rfl

theorem onServerRequest_caps (s : MuxState) (m : List Nat) (id msg : Json) :
    (onServerRequest s m id msg).1.clientSupportsPullDiagnostics
      = s.clientSupportsPullDiagnostics := by
  unfold onServerRequest
  split_ifs with h1 h2
  · rfl
  · rfl
  · cases hp : s.primaryClientId with
    | some p =>
      simp only [hp]
      all_goals split_ifs <;> rfl
    | none =>
      simp only [hp]
      all_goals rfl

theorem onServerRequest_outs (s : MuxState) (m : List Nat) (id msg : Json)
    (out : MuxOut) (h : out ∈ (onServerRequest s m id msg).2) :
    sentInit out = false := by
  unfold onServerRequest at h
  split_ifs at h with h1 h2
  · rw [List.mem_singleton.mp h]
    rfl
  · rw [List.mem_singleton.mp h]
    rfl
  · cases hp : s.primaryClientId with
    | some p =>
      simp only [hp] at h
      split_ifs at h with hm
      · rw [List.mem_singleton.mp h]
        rfl
      · rw [List.mem_singleton.mp h]
        rfl
    | none =>
      simp only [hp] at h
      rw [List.mem_singleton.mp h]
      rfl

theorem handleInitReq_caps (sp : MSpec) (s : MuxState) (d : Nat)
    (id msg : Json) :
    (handleInitReq sp s d id msg).1.clientSupportsPullDiagnostics
      = (recordClientCapabilities s d msg).clientSupportsPullDiagnostics := by
  simp only [handleInitReq]
  rcases hps : (recordClientCapabilities s d msg).init with _ | p | ⟨r, e⟩
  · rfl
  · rfl
  · rfl

theorem jsGet_eq_of_field_eq (a b : Json) (k : List Nat)
    (h : Json.field a k = Json.field b k) : jsGet a k = jsGet b k := by
  unfold jsGet
  rw [h]

theorem filter_sentInit_nil (l : List MuxOut)
    (h : ∀ out ∈ l, sentInit out = false) : l.filter sentInit = [] := by
  induction l with
  | nil => rfl
  | cons a l ih =>
    simp only [List.filter]
    rw [h a (List.mem_cons_self a l)]
    exact ih (fun out hm => h out (List.mem_cons_of_mem a hm))

/-- One processed event changes the count of server-bound `initialize`
messages by exactly the change of the init-state rank: the only event
that ever writes an `initialize` to the server is the first client
`initialize` request, which moves the state from not-started to
in-progress. -/
theorem muxStep_initCount (sp : MSpec) (s : MuxState) (e : MuxEv)
    (hhook : ∀ h, sp.prepareInit = some h → ∀ m,
      Json.field (h m) (asciiBytes "method") = Json.field m (asciiBytes "method"))
    (hbuild : ∀ f, sp.buildRequest = some f → ∀ uri,
      jsGet (f uri) (asciiBytes "method") = none ∨
      ∃ v, jsGet (f uri) (asciiBytes "method") = some v ∧
        jsToString v ≠ asciiBytes "initialize")
    (hev : ∀ d m', e = MuxEv.fromClient d m' →
      ∀ mv, jsGet m' (asciiBytes "method") = some mv →
        jsToString mv = asciiBytes "initialize" →
        jsGet m' (asciiBytes "id") ≠ none) :
    ((muxStep sp s e).2.filter sentInit).length + initRank s.init
      = initRank (muxStep sp s e).1.init := by
  cases e with
  | connect =>
    simp only [muxStep, List.filter_nil, List.length_nil, Nat.zero_add]
    rfl
  | disconnect c =>
    simp only [muxStep, List.filter_nil, List.length_nil, Nat.zero_add]
    rfl
  | fromClient d msg =>
    simp only [muxStep, onClientMessage]
    cases hm : jsGet msg (asciiBytes "method") with
    | none =>
      cases hid : jsGet msg (asciiBytes "id") with
      | some idv =>
        obtain ⟨l, hl⟩ := onClientResponse_state s idv msg
        rw [filter_sentInit_nil _ ?houts, hl]
        case houts =>
          intro out hout
          rcases onClientResponse_outs s idv msg out hout with ⟨v, hv⟩ | hv
          · rw [hv]
            simp only [sentInit,
              jsGet_setField_ne msg (asciiBytes "method") (asciiBytes "id") v (by decide),
              hm]
          · rw [hv]
            simp only [sentInit, hm]
        simp
      | none =>
        rw [filter_sentInit_nil _ ?houts]
        case houts =>
          intro out hout
          rw [List.mem_singleton.mp hout]
          simp only [sentInit, hm]
        simp
    | some mv =>
      cases hid : jsGet msg (asciiBytes "id") with
      | none =>
        obtain ⟨b, hb⟩ := onClientNotification_state sp s d (jsToString mv) msg
        rw [filter_sentInit_nil _ ?houts, hb]
        case houts =>
          intro out hout
          rcases onClientNotification_outs sp s d (jsToString mv) msg with ho | ho
          · rw [ho] at hout
            rw [List.mem_singleton.mp hout]
            simp only [sentInit, hm]
            by_cases hmi : jsToString mv = asciiBytes "initialize"
            · exact absurd hid (hev d msg rfl mv hm hmi)
            · simp [hmi]
          · rw [ho] at hout
            simp at hout
        simp
      | some idv =>
        change ((onClientRequest sp s d (jsToString mv) idv msg).2.filter sentInit).length
            + initRank s.init
          = initRank (onClientRequest sp s d (jsToString mv) idv msg).1.init
        by_cases hmi : jsToString mv = asciiBytes "initialize"
        · rw [show onClientRequest sp s d (jsToString mv) idv msg
              = handleInitReq sp s d idv msg by
            unfold onClientRequest; rw [if_pos hmi]]
          simp only [handleInitReq]
          rcases hinit : (recordClientCapabilities s d msg).init with _ | p | ⟨r, e2⟩
          · rw [show s.init = InitState.notStarted from hinit]
            have hout1 : sentInit (MuxOut.toServer (Json.setField
                (match sp.prepareInit with
                 | some hook => hook msg
                 | none => msg) (asciiBytes "id")
                (Json.num (recordClientCapabilities s d msg).nextServerRequestId)))
                = true := by
              cases hpi : sp.prepareInit with
              | none =>
                simp only [hpi, sentInit,
                  jsGet_setField_ne msg (asciiBytes "method") (asciiBytes "id") _ (by decide),
                  hm]
                simp [hmi]
              | some hook =>
                simp only [hpi, sentInit,
                  jsGet_setField_ne (hook msg) (asciiBytes "method") (asciiBytes "id") _ (by decide),
                  jsGet_eq_of_field_eq (hook msg) msg (asciiBytes "method")
                    (hhook hook hpi msg),
                  hm]
                simp [hmi]
            simp only [List.filter, hout1, List.length_cons, List.filter_nil,
              List.length_nil]
            simp [initRank]
          · rw [show s.init = InitState.inProgress p from hinit]
            simp [initRank]
          · rw [show s.init = InitState.done r e2 from hinit]
            rw [filter_sentInit_nil _ ?houts]
            case houts =>
              intro out hout
              obtain ⟨⟨m2, hm2⟩, -⟩ := respondWithCachedInit_mem _ _ _ _ _ out hout
              rw [hm2]
              rfl
            simp [initRank, hinit]
        · rw [show onClientRequest sp s d (jsToString mv) idv msg
              = ({ s with
                    nextServerRequestId := s.nextServerRequestId + 1,
                    pendingClientRequests :=
                      updA s.nextServerRequestId (d, idv) s.pendingClientRequests },
                 [MuxOut.toServer (Json.setField msg (asciiBytes "id")
                    (Json.num s.nextServerRequestId))]) by
            unfold onClientRequest; rw [if_neg hmi]]
          rw [filter_sentInit_nil _ ?houts]
          case houts =>
            intro out hout
            rw [List.mem_singleton.mp hout]
            simp only [sentInit,
              jsGet_setField_ne msg (asciiBytes "method") (asciiBytes "id") _ (by decide),
              hm]
            simp [hmi]
          simp
  | fromServer msg =>
    simp only [muxStep, onServerMessage]
    cases hm : jsGet msg (asciiBytes "method") with
    | none =>
      cases hid : jsGet msg (asciiBytes "id") with
      | some idv =>
        rw [filter_sentInit_nil _ ?houts]
        case houts =>
          intro out hout
          obtain ⟨d2, m2, hdm⟩ := onServerResponse_toClient sp s idv msg out hout
          rw [hdm]
          rfl
        rw [onServerResponse_initRank sp s idv msg]
        simp
      | none =>
        rw [filter_sentInit_nil _ ?houts]
        case houts =>
          intro out hout
          obtain ⟨d2, m2, hdm⟩ := broadcast_toClient s msg out hout
          rw [hdm]
          rfl
        simp
    | some mv =>
      cases hid : jsGet msg (asciiBytes "id") with
      | none =>
        rw [filter_sentInit_nil _ ?houts]
        case houts =>
          intro out hout
          obtain ⟨d2, m2, hdm⟩ := broadcast_toClient s msg out hout
          rw [hdm]
          rfl
        simp
      | some idv =>
        rw [filter_sentInit_nil _ ?houts]
        case houts =>
          intro out hout
          exact onServerRequest_outs s (jsToString mv) idv msg out hout
        simp [onServerRequest_init]
  | bridgeFire uri =>
    simp only [muxStep]
    by_cases hd : uri ∈ s.bridge.debounce
    · rw [if_pos hd]
      rw [filter_sentInit_nil _ ?houts]
      case houts =>
        intro out hout
        simp only [bridgeRequest] at hout
        split_ifs at hout with h1 h2
        · simp at hout
        · simp at hout
        · rw [List.mem_singleton.mp hout]
          cases hbr : sp.buildRequest with
          | none =>
            simp only [hbr, sentInit]
            rfl
          | some f =>
            simp only [hbr, sentInit]
            rcases hbuild f hbr uri with hb1 | ⟨v, hb1, hb2⟩
            · rw [jsGet_setField_ne (f uri) (asciiBytes "method") (asciiBytes "id") _ (by decide), hb1]
            · rw [jsGet_setField_ne (f uri) (asciiBytes "method") (asciiBytes "id") _ (by decide), hb1]
              simp [hb2]
      rw [bridgeRequest_init]
      simp
    · rw [if_neg hd]
      simp only [List.filter_nil, List.length_nil, Nat.zero_add]

theorem runFrom_initCount (sp : MSpec)
    (hhook : ∀ h, sp.prepareInit = some h → ∀ m,
      Json.field (h m) (asciiBytes "method") = Json.field m (asciiBytes "method"))
    (hbuild : ∀ f, sp.buildRequest = some f → ∀ uri,
      jsGet (f uri) (asciiBytes "method") = none ∨
      ∃ v, jsGet (f uri) (asciiBytes "method") = some v ∧
        jsToString v ≠ asciiBytes "initialize") :
    ∀ (evs : List MuxEv) (s : MuxState),
    (∀ e ∈ evs, ∀ d m', e = MuxEv.fromClient d m' →
      ∀ mv, jsGet m' (asciiBytes "method") = some mv →
        jsToString mv = asciiBytes "initialize" →
        jsGet m' (asciiBytes "id") ≠ none) →
    ((runFrom sp s evs).2.filter sentInit).length + initRank s.init
      = initRank (runFrom sp s evs).1.init := by
  intro evs
  induction evs with
  | nil =>
    intro s hevs
    simp [runFrom]
  | cons e es ih =>
    intro s hevs
    have hstep := muxStep_initCount sp s e hhook hbuild
      (fun d m' he => hevs e (List.mem_cons_self e es) d m' he)
    have hih := ih (muxStep sp s e).1
      (fun e' he' => hevs e' (List.mem_cons_of_mem e he'))
    simp only [runFrom, List.filter_append, List.length_append]
    omega

/-- C1 counterexample: client 1 first performs a normal `initialize`
request (forwarded, as expected), then sends an `initialize`
*notification* (no id) while the handshake is in progress; the mux
forwards it, so the server receives a second message with method
`initialize`. -/
theorem C1_notification_counterexample :
    ((runFrom oxlintMSpec initMux
        [MuxEv.connect,
         MuxEv.fromClient 1 (Json.obj
           [(asciiBytes "jsonrpc", Json.str (asciiBytes "2.0")),
            (asciiBytes "id", Json.num 1),
            (asciiBytes "method", Json.str (asciiBytes "initialize")),
            (asciiBytes "params", Json.obj [])]),
         MuxEv.fromClient 1 (Json.obj
           [(asciiBytes "jsonrpc", Json.str (asciiBytes "2.0")),
            (asciiBytes "method", Json.str (asciiBytes "initialize"))])]).2.filter
        sentInit).length = 2 := by decide

/-- C1 (amended): provided every client message whose method is
`initialize` is a proper request (carries an id, as the protocol
requires), and the spec's `prepareInitialize` hook and the bridge's
`buildRequest` never change or produce an `initialize` method, then the
number of `initialize` messages the server receives over any event
sequence equals the init-state rank: zero while the handshake has not
started, and exactly one forever after — in particular never more than
one.  (Without the id proviso the original claim fails: an `initialize`
notification is forwarded verbatim, see the counterexample.) -/
theorem C1_init_once (sp : MSpec) (evs : List MuxEv)
    (hhook : ∀ h, sp.prepareInit = some h → ∀ m,
      Json.field (h m) (asciiBytes "method") = Json.field m (asciiBytes "method"))
    (hbuild : ∀ f, sp.buildRequest = some f → ∀ uri,
      jsGet (f uri) (asciiBytes "method") = none ∨
      ∃ v, jsGet (f uri) (asciiBytes "method") = some v ∧
        jsToString v ≠ asciiBytes "initialize")
    (hevs : ∀ e ∈ evs, ∀ d m', e = MuxEv.fromClient d m' →
      ∀ mv, jsGet m' (asciiBytes "method") = some mv →
        jsToString mv = asciiBytes "initialize" →
        jsGet m' (asciiBytes "id") ≠ none) :
    ((runFrom sp initMux evs).2.filter sentInit).length
      = initRank (runFrom sp initMux evs).1.init ∧
    ((runFrom sp initMux evs).2.filter sentInit).length ≤ 1 := by
  have h := runFrom_initCount sp hhook hbuild evs initMux hevs
  have hr : initRank initMux.init = 0 := rfl
  rw [hr] at h
  have hle : ∀ i : InitState, initRank i ≤ 1 := by
    intro i
    cases i <;> simp [initRank]
  refine ⟨by omega, ?_⟩
  have := hle (runFrom sp initMux evs).1.init
  omega

/-- C1 witness: one connected client performing the first `initialize`
request; the server receives exactly one `initialize` and the state rank
is 1. -/
theorem C1_init_once_witness :
    ((runFrom oxlintMSpec initMux
        [MuxEv.connect,
         MuxEv.fromClient 1 (Json.obj
           [(asciiBytes "jsonrpc", Json.str (asciiBytes "2.0")),
            (asciiBytes "id", Json.num 1),
            (asciiBytes "method", Json.str (asciiBytes "initialize")),
            (asciiBytes "params", Json.obj [])])]).2.filter sentInit).length
      = initRank (runFrom oxlintMSpec initMux
        [MuxEv.connect,
         MuxEv.fromClient 1 (Json.obj
           [(asciiBytes "jsonrpc", Json.str (asciiBytes "2.0")),
            (asciiBytes "id", Json.num 1),
            (asciiBytes "method", Json.str (asciiBytes "initialize")),
            (asciiBytes "params", Json.obj [])])]).1.init ∧
    ((runFrom oxlintMSpec initMux
        [MuxEv.connect,
         MuxEv.fromClient 1 (Json.obj
           [(asciiBytes "jsonrpc", Json.str (asciiBytes "2.0")),
            (asciiBytes "id", Json.num 1),
            (asciiBytes "method", Json.str (asciiBytes "initialize")),
            (asciiBytes "params", Json.obj [])])]).2.filter sentInit).length ≤ 1 :=
  C1_init_once oxlintMSpec _
    (fun h hh => Option.noConfusion hh)
    (fun f hf => Option.noConfusion hf)
    (by
      intro e he d m' heq mv hmv hmi
      fin_cases he
      · exact MuxEv.noConfusion heq
      · injection heq with h1 h2
        subst h2
        decide)

/-- C10: a freshly accepted client is recorded as not advertising
pull-diagnostics support; while that record stands and the client is
connected it makes `hasNonPullClients` true and receives every
synthesized `textDocument/publishDiagnostics` notification the bridge
emits; and the recorded flag is changed by no event other than that
client's own `initialize` request (or its teardown). -/
theorem C10_new_client_window (sp : MSpec) (s : MuxState) :
    (lookupA s.nextClientId (addClient s).clientSupportsPullDiagnostics
        = some false ∧
      s.nextClientId ∈ (addClient s).clients) ∧
    (∀ c, c ∈ s.clients →
      lookupA c s.clientSupportsPullDiagnostics = some false →
      hasNonPullClients s = true) ∧
    (∀ c uri diags, c ∈ s.clients →
      lookupA c s.clientSupportsPullDiagnostics = some false →
      MuxOut.toClient c (Json.obj
        [(asciiBytes "jsonrpc", Json.str (asciiBytes "2.0")),
         (asciiBytes "method", Json.str (asciiBytes "textDocument/publishDiagnostics")),
         (asciiBytes "params", Json.obj
           [(asciiBytes "uri", uri), (asciiBytes "diagnostics", Json.arr diags)])])
        ∈ publishDiagnosticsToNonPullClients s uri diags) ∧
    (∀ c e, c < s.nextClientId →
      (∀ m', e ≠ MuxEv.fromClient c m' ∨
        (∀ mv, jsGet m' (asciiBytes "method") = some mv →
          jsToString mv ≠ asciiBytes "initialize")) →
      e ≠ MuxEv.disconnect c →
      lookupA c (muxStep sp s e).1.clientSupportsPullDiagnostics
        = lookupA c s.clientSupportsPullDiagnostics) := by
  refine ⟨⟨?_, ?_⟩, ?_, ?_, ?_⟩
  · simp only [addClient]
    exact lookupA_updA _ _ _
  · simp only [addClient]
    exact List.mem_append_right _ (List.mem_singleton.mpr rfl)
  · intro c hc hflag
    unfold hasNonPullClients
    refine List.any_eq_true.mpr ⟨c, hc, ?_⟩
    rw [hflag]
    rfl
  · intro c uri diags hc hflag
    unfold publishDiagnosticsToNonPullClients
    refine List.mem_map.mpr ⟨c, List.mem_filter.mpr ⟨hc, ?_⟩, rfl⟩
    rw [hflag]
    rfl
  · intro c e hlt hm hd
    cases e with
    | connect =>
      simp only [muxStep, addClient]
      exact lookupA_updA_ne _ _ (Nat.ne_of_lt hlt)
    | disconnect d =>
      have hdc : d ≠ c := fun h => hd (by rw [h])
      simp only [muxStep, removeClient]
      exact lookupA_eraseA_ne _ (fun h => hdc h.symm)
    | fromClient d m0 =>
      simp only [muxStep, onClientMessage]
      cases hmm : jsGet m0 (asciiBytes "method") with
      | none =>
        cases hidm : jsGet m0 (asciiBytes "id") with
        | some idv =>
          obtain ⟨l, hl⟩ := onClientResponse_state s idv m0
          rw [hl]
        | none => rfl
      | some mv =>
        cases hidm : jsGet m0 (asciiBytes "id") with
        | none =>
          obtain ⟨b, hb⟩ := onClientNotification_state sp s d (jsToString mv) m0
          rw [hb]
        | some idv =>
          change lookupA c (onClientRequest sp s d (jsToString mv) idv m0).1.clientSupportsPullDiagnostics
            = lookupA c s.clientSupportsPullDiagnostics
          by_cases hmi : jsToString mv = asciiBytes "initialize"
          · have hdc : d ≠ c := by
              intro hq
              subst hq
              rcases hm m0 with hcon | hcon
              · exact hcon rfl
              · exact hcon mv hmm hmi
            rw [show onClientRequest sp s d (jsToString mv) idv m0
                = handleInitReq sp s d idv m0 by
              unfold onClientRequest; rw [if_pos hmi]]
            rw [handleInitReq_caps]
            exact lookupA_updA_ne _ _ (fun h => hdc h.symm)
          · rw [show onClientRequest sp s d (jsToString mv) idv m0
                = ({ s with
                      nextServerRequestId := s.nextServerRequestId + 1,
                      pendingClientRequests :=
                        updA s.nextServerRequestId (d, idv) s.pendingClientRequests },
                   [MuxOut.toServer (Json.setField m0 (asciiBytes "id")
                      (Json.num s.nextServerRequestId))]) by
              unfold onClientRequest; rw [if_neg hmi]]
    | fromServer m0 =>
      simp only [muxStep, onServerMessage]
      cases hmm : jsGet m0 (asciiBytes "method") with
      | none =>
        cases hidm : jsGet m0 (asciiBytes "id") with
        | some idv => rw [onServerResponse_caps]
        | none => rfl
      | some mv =>
        cases hidm : jsGet m0 (asciiBytes "id") with
        | none => rfl
        | some idv =>
          change lookupA c (onServerRequest s (jsToString mv) idv m0).1.clientSupportsPullDiagnostics
            = lookupA c s.clientSupportsPullDiagnostics
          rw [onServerRequest_caps]
    | bridgeFire uri =>
      simp only [muxStep]
      by_cases hdd : uri ∈ s.bridge.debounce
      · rw [if_pos hdd, bridgeRequest_caps]
      · rw [if_neg hdd]

/-- C10 witness: the first accepted client, a concrete publish, and a
server notification leaving the flag untouched. -/
theorem C10_new_client_window_witness :
    (lookupA initMux.nextClientId (addClient initMux).clientSupportsPullDiagnostics
        = some false ∧
      initMux.nextClientId ∈ (addClient initMux).clients) ∧
    hasNonPullClients (addClient initMux) = true ∧
    MuxOut.toClient 1 (Json.obj
      [(asciiBytes "jsonrpc", Json.str (asciiBytes "2.0")),
       (asciiBytes "method", Json.str (asciiBytes "textDocument/publishDiagnostics")),
       (asciiBytes "params", Json.obj
         [(asciiBytes "uri", Json.str (asciiBytes "file:///a.ts")),
          (asciiBytes "diagnostics", Json.arr [])])])
      ∈ publishDiagnosticsToNonPullClients (addClient initMux)
          (Json.str (asciiBytes "file:///a.ts")) [] ∧
    lookupA 1 (muxStep oxlintMSpec (addClient initMux)
        (MuxEv.fromServer (Json.obj []))).1.clientSupportsPullDiagnostics
      = lookupA 1 (addClient initMux).clientSupportsPullDiagnostics :=
  ⟨(C10_new_client_window oxlintMSpec initMux).1,
   (C10_new_client_window oxlintMSpec (addClient initMux)).2.1 1
     (by decide) (by decide),
   (C10_new_client_window oxlintMSpec (addClient initMux)).2.2.1 1
     (Json.str (asciiBytes "file:///a.ts")) [] (by decide) (by decide),
   (C10_new_client_window oxlintMSpec (addClient initMux)).2.2.2 1
     (MuxEv.fromServer (Json.obj [])) (by decide)
     (fun m' => Or.inl (fun h => MuxEv.noConfusion h))
     (fun h => MuxEv.noConfusion h)⟩

/-- C6: encoding any message `m` and decoding the resulting bytes yields
exactly `[m]` with no error, and the encoded frame's `Content-Length`
header is computed from the byte length of the serialized body (the
model is byte-level, so `(Json.ser m).length` is the UTF-8 byte
count). -/
theorem C6_framing_roundtrip (m : Json) :
    decodeChunks [encodeMessage m] = ([m], none) ∧
    encodeMessage m
      = clHeader (Json.ser m).length ++ [13, 10, 13, 10] ++ Json.ser m :=
  ⟨decode_encode m, encodeMessage_eq_encodeBody m⟩

/-- C5 counterexample: the stream ends after only 2 of the declared 5
body bytes, yet decoding reports no framing error — the incomplete tail
is silently dropped at end of stream, contradicting the claimed
fails-on-EOF-mid-body behavior. -/
theorem C5_eof_midbody_counterexample :
    decodeChunks [asciiBytes "Content-Length: 5\r\n\r\nab"] = ([], none) := by
  decide

/-- C5 (amended): decoding fails with a framing error when a complete
header block lacks a usable `Content-Length` (in particular when the
declared length is not a finite number); a stream that ends before
the declared body length has been received is NOT an error — the
incomplete tail is silently discarded — and well-formed frames decode to
their messages without error (a frame whose body is not valid JSON
raises the separate JSON parse error). -/
theorem C5_decode_errors (msgs : List Json) (tail hdr rest body : List Nat)
    (hI : IncompleteTail tail)
    (h13 : ∀ b ∈ hdr, ¬(b = 13))
    (hcl : parseContentLength hdr = none)
    (hbad : jsonParse body = none) :
    decodeChunks [framesBytes msgs ++ tail] = (msgs, none) ∧
    decodeChunks [hdr ++ 13 :: 10 :: 13 :: 10 :: rest]
      = ([], some (DecodeErr.framingErr hdr)) ∧
    decodeChunks [encodeBody body] = ([], some (DecodeErr.badJson body)) :=
  ⟨decode_wellFormed msgs tail hI, decode_headerErr hdr rest h13 hcl,
    decode_badBody body hbad⟩

/-- C5 witness: one well-formed frame followed by a truncated frame
decodes cleanly; a header without `Content-Length` errors; a frame with
a non-JSON body raises the parse error. -/
theorem C5_decode_errors_witness :
    decodeChunks [framesBytes [Json.null] ++ asciiBytes "Content-Length: 5\r\n\r\nab"]
      = ([Json.null], none) ∧
    decodeChunks [asciiBytes "X: 1" ++ 13 :: 10 :: 13 :: 10 :: []]
      = ([], some (DecodeErr.framingErr (asciiBytes "X: 1"))) ∧
    decodeChunks [encodeBody (asciiBytes "\x7b")]
      = ([], some (DecodeErr.badJson (asciiBytes "\x7b"))) :=
  C5_decode_errors [Json.null] (asciiBytes "Content-Length: 5\r\n\r\nab")
    (asciiBytes "X: 1") [] (asciiBytes "\x7b")
    (Or.inr ⟨5, asciiBytes "ab", by decide, by decide⟩)
    (by decide) (by decide) (by decide)

theorem onServerResponse_nsri (sp : MSpec) (s : MuxState) (id msg : Json) :
    (onServerResponse sp s id msg).1.nextServerRequestId
      = s.nextServerRequestId := by
  simp only [onServerResponse]
  cases id with
  | num n =>
    cases hint : lookupA n s.pendingInternalRequests with
    | some uri =>
      simp only [hint]
      split_ifs with hb
      · simp only [bridgeOnServerResponse]
        split_ifs <;> rfl
      · rfl
    | none =>
      simp only [hint]
      cases hcl : lookupA n s.pendingClientRequests with
      | none => simp only [hcl]
      | some pr =>
        obtain ⟨prc, pro⟩ := pr
        simp only [hcl]
        rw [deliverToClient_fst]
        rcases hps : s.init with _ | p | ⟨r, e⟩
        · rfl
        · by_cases hpp : prc = p
          · simp only [if_pos hpp]
            rw [flushQueuedInit_state]
            by_cases hb : sp.bridgeMode
            · rw [if_pos hb]
              obtain ⟨b2, hm2⟩ := bridgeMarkInitDone_bridgeOnly _
              rw [hm2]
            · rw [if_neg hb]
          · simp only [if_neg hpp]
        · rfl
  | null => rfl
  | bool b => rfl
  | str t => rfl
  | arr xs => rfl
  | obj fs => rfl

theorem onServerRequest_nsri (s : MuxState) (m : List Nat) (id msg : Json) :
    (onServerRequest s m id msg).1.nextServerRequestId
      = s.nextServerRequestId := by
  unfold onServerRequest
  split_ifs with h1 h2
  · rfl
  · rfl
  · cases hp : s.primaryClientId with
    | some p =>
      simp only [hp]
      all_goals split_ifs <;> rfl
    | none =>
      simp only [hp]
      all_goals rfl

/-- `nextServerRequestId` never decreases. -/
theorem muxStep_nsri_mono (sp : MSpec) (s : MuxState) (e : MuxEv) :
    s.nextServerRequestId ≤ (muxStep sp s e).1.nextServerRequestId := by
  cases e with
  | connect => exact le_refl _
  | disconnect c => exact le_refl _
  | fromClient d m0 =>
    simp only [muxStep, onClientMessage]
    cases hmm : jsGet m0 (asciiBytes "method") with
    | none =>
      cases hidm : jsGet m0 (asciiBytes "id") with
      | some idv =>
        obtain ⟨l, hl⟩ := onClientResponse_state s idv m0
        rw [hl]
      | none => exact le_refl _
    | some mv =>
      cases hidm : jsGet m0 (asciiBytes "id") with
      | none =>
        obtain ⟨b, hb⟩ := onClientNotification_state sp s d (jsToString mv) m0
        rw [hb]
      | some idv =>
        change s.nextServerRequestId
          ≤ (onClientRequest sp s d (jsToString mv) idv m0).1.nextServerRequestId
        by_cases hmi : jsToString mv = asciiBytes "initialize"
        · rw [show onClientRequest sp s d (jsToString mv) idv m0
              = handleInitReq sp s d idv m0 by
            unfold onClientRequest; rw [if_pos hmi]]
          simp only [handleInitReq]
          rcases hinit : (recordClientCapabilities s d m0).init with _ | p | ⟨r, e2⟩
          · have hr : (recordClientCapabilities s d m0).nextServerRequestId
                = s.nextServerRequestId := rfl
            simp only []
            omega
          · exact le_refl _
          · exact le_refl _
        · rw [show onClientRequest sp s d (jsToString mv) idv m0
              = ({ s with
                    nextServerRequestId := s.nextServerRequestId + 1,
                    pendingClientRequests :=
                      updA s.nextServerRequestId (d, idv) s.pendingClientRequests },
                 [MuxOut.toServer (Json.setField m0 (asciiBytes "id")
                    (Json.num s.nextServerRequestId))]) by
            unfold onClientRequest; rw [if_neg hmi]]
          simp only []
          omega
  | fromServer m0 =>
    simp only [muxStep, onServerMessage]
    cases hmm : jsGet m0 (asciiBytes "method") with
    | none =>
      cases hidm : jsGet m0 (asciiBytes "id") with
      | some idv => rw [onServerResponse_nsri]
      | none => exact le_refl _
    | some mv =>
      cases hidm : jsGet m0 (asciiBytes "id") with
      | none => exact le_refl _
      | some idv =>
        change s.nextServerRequestId
          ≤ (onServerRequest s (jsToString mv) idv m0).1.nextServerRequestId
        rw [onServerRequest_nsri]
  | bridgeFire uri =>
    simp only [muxStep]
    by_cases hdd : uri ∈ s.bridge.debounce
    · rw [if_pos hdd]
      simp only [bridgeRequest]
      split_ifs
      · exact le_refl _
      · exact le_refl _
      · simp only []
        omega
    · rw [if_neg hdd]

/-- Along any run, `nextServerRequestId` stays at least its starting
value; from the initial state it stays positive, so minted ids are
positive. -/
theorem runFrom_nsri_mono (sp : MSpec) : ∀ (evs : List MuxEv) (s : MuxState),
    s.nextServerRequestId ≤ (runFrom sp s evs).1.nextServerRequestId := by
  intro evs
  induction evs with
  | nil => intro s; exact le_refl _
  | cons e es ih =>
    intro s
    simp only [runFrom]
    exact le_trans (muxStep_nsri_mono sp s e) (ih (muxStep sp s e).1)

/-- C3: a non-`initialize` client request is forwarded to the server
under the freshly minted id `nextServerRequestId` (recorded in the
client table together with the client and its original id `I`); minted
ids are positive along every run from the initial state; and when the
matching server response arrives (outside the init handshake), the mux
consumes the table entry and writes exactly one message, to exactly the
issuing client, with the id field restored to exactly `I`. -/
theorem C3_id_roundtrip (sp : MSpec) (s : MuxState) (c : Nat)
    (method : List Nat) (I msg resp : Json) (n : Int) :
    (method ≠ asciiBytes "initialize" →
      onClientRequest sp s c method I msg
        = ({ s with
              nextServerRequestId := s.nextServerRequestId + 1,
              pendingClientRequests :=
                updA s.nextServerRequestId (c, I) s.pendingClientRequests },
           [MuxOut.toServer (Json.setField msg (asciiBytes "id")
              (Json.num s.nextServerRequestId))]) ∧
      lookupA s.nextServerRequestId
        (updA s.nextServerRequestId (c, I) s.pendingClientRequests)
        = some (c, I)) ∧
    (∀ evs : List MuxEv,
      (1 : Int) ≤ (runFrom sp initMux evs).1.nextServerRequestId) ∧
    (lookupA n s.pendingInternalRequests = none →
      lookupA n s.pendingClientRequests = some (c, I) →
      (∀ q, s.init ≠ InitState.inProgress q) →
      c ∈ s.clients →
      onServerResponse sp s (Json.num n) resp
        = ({ s with pendingClientRequests := eraseA n s.pendingClientRequests },
           [MuxOut.toClient c (Json.setField resp (asciiBytes "id") I)]) ∧
      Json.field (Json.setField resp (asciiBytes "id") I) (asciiBytes "id")
        = some I) := by
  refine ⟨?_, ?_, ?_⟩
  · intro hm
    refine ⟨?_, lookupA_updA _ _ _⟩
    simp only [onClientRequest]
    rw [if_neg hm]
  · intro evs
    exact runFrom_nsri_mono sp evs initMux
  · intro hint hcl hq hc
    refine ⟨?_, field_setField_eq resp _ I⟩
    rw [onServerResponse_route sp s n c I resp hint hcl hq]
    unfold deliverToClient
    split_ifs with hmem
    · simp
    · exact absurd hc hmem

/-- C3 witness: mint-and-forward, positivity on the empty run, and the
response routed back under the original string id. -/
theorem C3_id_roundtrip_witness :
    (onClientRequest oxlintMSpec (addClient initMux) 1 (asciiBytes "textDocument/hover")
        (Json.str (asciiBytes "abc"))
        (Json.obj [(asciiBytes "method", Json.str (asciiBytes "textDocument/hover")),
                   (asciiBytes "id", Json.str (asciiBytes "abc"))])
      = ({ addClient initMux with
            nextServerRequestId := (addClient initMux).nextServerRequestId + 1,
            pendingClientRequests :=
              updA (addClient initMux).nextServerRequestId (1, Json.str (asciiBytes "abc"))
                (addClient initMux).pendingClientRequests },
         [MuxOut.toServer (Json.setField
            (Json.obj [(asciiBytes "method", Json.str (asciiBytes "textDocument/hover")),
                       (asciiBytes "id", Json.str (asciiBytes "abc"))])
            (asciiBytes "id") (Json.num (addClient initMux).nextServerRequestId))])) ∧
    (1 : Int) ≤ (runFrom oxlintMSpec initMux [MuxEv.connect]).1.nextServerRequestId ∧
    (onServerResponse oxlintMSpec
        { addClient initMux with
            pendingClientRequests := [(3, (1, Json.str (asciiBytes "abc")))] }
        (Json.num 3) (Json.obj [(asciiBytes "result", Json.num 1)])
      = ({ { addClient initMux with
              pendingClientRequests := [(3, (1, Json.str (asciiBytes "abc")))] } with
            pendingClientRequests :=
              eraseA 3 [(3, (1, Json.str (asciiBytes "abc")))] },
         [MuxOut.toClient 1 (Json.setField
            (Json.obj [(asciiBytes "result", Json.num 1)])
            (asciiBytes "id") (Json.str (asciiBytes "abc")))])) :=
  ⟨((C3_id_roundtrip oxlintMSpec (addClient initMux) 1
      (asciiBytes "textDocument/hover") (Json.str (asciiBytes "abc"))
      (Json.obj [(asciiBytes "method", Json.str (asciiBytes "textDocument/hover")),
                 (asciiBytes "id", Json.str (asciiBytes "abc"))])
      Json.null 0).1 (by decide)).1,
   (C3_id_roundtrip oxlintMSpec (addClient initMux) 1
      (asciiBytes "textDocument/hover") (Json.str (asciiBytes "abc"))
      Json.null Json.null 0).2.1 [MuxEv.connect],
   (((C3_id_roundtrip oxlintMSpec
      { addClient initMux with
          pendingClientRequests := [(3, (1, Json.str (asciiBytes "abc")))] }
      1 [] (Json.str (asciiBytes "abc")) Json.null
      (Json.obj [(asciiBytes "result", Json.num 1)]) 3).2.2 (by decide) (by decide)
      (by intro q h; exact InitState.noConfusion h) (by decide)).1)⟩
